import Mathlib

/-!
Shallow embedding of the EasyPeek-backend news-conversion pipeline.

The repository holds two independent converters:
* variant 1: `src/convert_news.py` (`NewsConverter`), and
* variant 2: `src/scripts/convert_localization_to_news.py` (`NewsDataConverter`).

Python strings are modelled as `List Char` (one element per code point, which
matches Python's `len`/slicing semantics), machine integers as `Nat`/`Int`,
and Python floats as `Rat` (every arithmetic fact proved below is exact, so
no rounding of the binary representation is involved).  Impure library calls
(`datetime.now()`, `random.*`, `hashlib.md5`) are modelled as oracle inputs
passed explicitly; validity predicates record the ranges the library
guarantees (e.g. a wall-clock year below 10000, `random.choice` indices in
range).
-/

/-! ## Character classes and basic string helpers -/

/-- The characters Python's `str` type treats as whitespace (`\s` in `re`
with a `str` pattern, and `str.strip()` with no argument). -/
def pySpace (c : Char) : Bool :=
  c = ' ' ∨ c = '\t' ∨ c = '\n' ∨ c = '\r' ∨ c = '\x0b' ∨ c = '\x0c' ∨
  c = '\x1c' ∨ c = '\x1d' ∨ c = '\x1e' ∨ c = '\x1f' ∨ c = '\x85' ∨
  c = '\xa0' ∨ c = ' ' ∨ (' ' ≤ c ∧ c ≤ ' ') ∨
  c = ' ' ∨ c = ' ' ∨ c = ' ' ∨ c = ' ' ∨ c = '　'

/-- ASCII decimal digit (`\d` for the patterns used by both converters,
which only ever match ASCII digits in the data handled here). -/
def isDigitCh (c : Char) : Bool := '0' ≤ c ∧ c ≤ '9'

/-- `leadsWith p l` is true when `p` is a prefix of `l`
(Python `str.startswith`). -/
def leadsWith : List Char → List Char → Bool
  | [], _ => true
  | _ :: _, [] => false
  | a :: as, b :: bs => a = b && leadsWith as bs

/-- Python `str.strip()`: remove leading and trailing whitespace. -/
def pyStrip (l : List Char) : List Char :=
  ((l.dropWhile pySpace).reverse.dropWhile pySpace).reverse

/-- Left-to-right scan counting non-overlapping matches of `n`; `skip`
holds the number of characters still covered by the previous match. -/
def countOccAux (n : List Char) : List Char → ℕ → ℕ
  | [], _ => 0
  | _ :: t, k + 1 => countOccAux n t k
  | c :: t, 0 =>
    if leadsWith n (c :: t) then 1 + countOccAux n t (n.length - 1)
    else countOccAux n t 0

/-- Python `sub.count(s)`: number of non-overlapping occurrences of `n`
in `h`, scanning left to right. -/
def countOcc (n : List Char) (h : List Char) : ℕ :=
  if n = [] then h.length + 1 else countOccAux n h 0

/-- Python `needle in haystack` for strings: substring test. -/
def containsSub (h : List Char) (pat : List Char) : Bool :=
  leadsWith pat h ||
    match h with
    | [] => false
    | _ :: t => containsSub t pat

/-! ## Whitespace removal, bracket removal and sentence splitting
(variant 1's `generate_summary`) -/

/-- `re.sub(r'\s+', '', content)`: drop every whitespace character. -/
def removeWs (l : List Char) : List Char := l.filter (fun c => !pySpace c)

/-- Position after the first `'】'` of `l`, if any. -/
def dropToClose : List Char → Option (List Char)
  | [] => none
  | c :: t => if c = '】' then some t else dropToClose t

theorem dropToClose_length {l r : List Char} (h : dropToClose l = some r) :
    r.length < l.length := by
  induction l with
  | nil => simp [dropToClose] at h
  | cons c t ih =>
    by_cases hc : c = '】'
    · simp only [dropToClose, hc, if_pos] at h
      cases h
      simp
    · simp only [dropToClose, hc, if_neg, if_false] at h
      exact Nat.lt_succ_of_lt (ih h)

/-- Fuel-driven worker for `removeBrackets`; the fuel only needs to cover
the input length (each step strictly shortens the list). -/
def removeBracketsF : ℕ → List Char → List Char
  | 0, l => l
  | _ + 1, [] => []
  | fuel + 1, c :: t =>
    if c = '【' then
      match dropToClose t with
      | some rest => removeBracketsF fuel rest
      | none => c :: removeBracketsF fuel t
    else c :: removeBracketsF fuel t

/-- `re.sub(r'【.*?】', '', s)`: remove each non-greedy `【...】` block
(the input has no newlines when this runs, so `.` matching is moot). -/
def removeBrackets (l : List Char) : List Char := removeBracketsF l.length l

/-- Is `c` one of the sentence terminators `。！？`? -/
def isTermCh (c : Char) : Bool := c = '。' ∨ c = '！' ∨ c = '？'

/-- `re.split(r'[。！？]', s)` with accumulator `cur` holding the current
piece reversed. -/
def splitTerm : List Char → List Char → List (List Char)
  | [], cur => [cur.reverse]
  | c :: t, cur =>
    if isTermCh c then cur.reverse :: splitTerm t []
    else splitTerm t (c :: cur)

/-! ## Digit rendering and zero padding -/

/-- Decimal digit character for `n % 10`. -/
def digitChar10 (n : ℕ) : Char := Char.ofNat (48 + n % 10)

/-- Fuel-driven worker for `toDigits`: peel decimal digits into the
accumulator (fuel `n` always suffices, as a number has at most `n`
digits for `n ≥ 1`). -/
def toDigitsF : ℕ → ℕ → List Char → List Char
  | 0, n, acc => digitChar10 n :: acc
  | fuel + 1, n, acc =>
    if n < 10 then digitChar10 n :: acc
    else toDigitsF fuel (n / 10) (digitChar10 n :: acc)

/-- Decimal rendering of a natural number (Python `str(n)` for `n ≥ 0`). -/
def toDigits (n : ℕ) : List Char := toDigitsF n n []

/-- Python `str.zfill(2)` for a digit string. -/
def zfill2 (l : List Char) : List Char := List.replicate (2 - l.length) '0' ++ l

/-- Two-digit zero-padded rendering of `n` (`strftime` `%m`, `%d`, ...). -/
def pad2N (n : ℕ) : List Char := zfill2 (toDigits n)

/-- Four-digit zero-padded rendering of `n` (`strftime` `%Y`). -/
def pad4N (n : ℕ) : List Char := List.replicate (4 - (toDigits n).length) '0' ++ toDigits n

/-! ## Wall-clock model -/

/-- A `datetime.datetime` value (the oracle for `datetime.now()` and for the
random fallback instants). -/
structure DT where
  year : ℕ
  month : ℕ
  day : ℕ
  hour : ℕ
  minute : ℕ
  second : ℕ

/-- Digit-width bounds every real `datetime.datetime` satisfies; this is
all the formatter needs to emit a canonically shaped timestamp. -/
def DT.Valid (d : DT) : Prop :=
  d.year ≤ 9999 ∧ d.month ≤ 99 ∧ d.day ≤ 99 ∧ d.hour ≤ 99 ∧
  d.minute ≤ 99 ∧ d.second ≤ 99

instance (d : DT) : Decidable d.Valid := by
  unfold DT.Valid
  infer_instance

/-- `dt.strftime("%Y-%m-%d %H:%M:%S")`. -/
def fmtDT (d : DT) : List Char :=
  pad4N d.year ++ '-' :: (pad2N d.month ++ '-' :: (pad2N d.day ++
    ' ' :: (pad2N d.hour ++ ':' :: (pad2N d.minute ++ ':' :: pad2N d.second))))

/-- Does `l` have the syntactic shape `YYYY-MM-DD HH:MM:SS` (all positions
ASCII digits, separators as shown)? -/
def isCanonical (l : List Char) : Bool :=
  match l with
  | [y1, y2, y3, y4, '-', m1, m2, '-', d1, d2, ' ', h1, h2, ':', n1, n2, ':', s1, s2] =>
    isDigitCh y1 && isDigitCh y2 && isDigitCh y3 && isDigitCh y4 &&
    isDigitCh m1 && isDigitCh m2 && isDigitCh d1 && isDigitCh d2 &&
    isDigitCh h1 && isDigitCh h2 && isDigitCh n1 && isDigitCh n2 &&
    isDigitCh s1 && isDigitCh s2
  | _ => false

/-! ## Variant 1: `NewsConverter.parse_datetime`
Search for `(\d{4})年(\d{1,2})月(\d{1,2})日(\d{1,2}):(\d{1,2})` and format
the groups with `zfill(2)`; otherwise fall back to `datetime.now()`. -/

/-- Regex step `(\d{1,2})sep` with greedy backtracking: two digits followed
by `sep`, else one digit followed by `sep`, else fail.  Returns the matched
digit group and the remainder after `sep`. -/
def grab2 (sep : Char) : List Char → Option (List Char × List Char)
  | a :: b :: c :: rest =>
    if isDigitCh a && isDigitCh b && (c = sep) then some ([a, b], rest)
    else if isDigitCh a && (b = sep) then some ([a], c :: rest)
    else none
  | [a, b] => if isDigitCh a && (b = sep) then some ([a], []) else none
  | _ => none

/-- Trailing regex group `(\d{1,2})` (greedy, nothing required after it). -/
def grabMin : List Char → Option (List Char)
  | a :: b :: _ =>
    if isDigitCh a && isDigitCh b then some [a, b]
    else if isDigitCh a then some [a] else none
  | [a] => if isDigitCh a then some [a] else none
  | [] => none

/-- The five captured groups of variant 1's date pattern. -/
structure DTGroups where
  y : List Char
  m : List Char
  d : List Char
  h : List Char
  mi : List Char

/-- Attempt variant 1's pattern anchored at the head of `l`. -/
def matchAtV1 (l : List Char) : Option DTGroups :=
  match l with
  | y1 :: y2 :: y3 :: y4 :: c :: rest =>
    if isDigitCh y1 && isDigitCh y2 && isDigitCh y3 && isDigitCh y4 && (c = '年') then
      match grab2 '月' rest with
      | some (m, r2) =>
        match grab2 '日' r2 with
        | some (d, r3) =>
          match grab2 ':' r3 with
          | some (h, r4) =>
            match grabMin r4 with
            | some mi => some ⟨[y1, y2, y3, y4], m, d, h, mi⟩
            | none => none
          | none => none
        | none => none
      | none => none
    else none
  | _ => none

/-- `re.search`: try the pattern at each position, leftmost match wins. -/
def searchV1 : List Char → Option DTGroups
  | [] => none
  | c :: t =>
    match matchAtV1 (c :: t) with
    | some g => some g
    | none => searchV1 t

/-- `NewsConverter.parse_datetime` (src/convert_news.py:79-93).  The
`datetime.now()` read is the oracle argument `now`; the function never
raises (the source wraps everything in `try/except` that also returns
`now`). -/
def parse_datetime_v1 (s : String) (now : DT) : String :=
  let l := s.toList
  if ('年' ∈ l) ∧ ('月' ∈ l) ∧ ('日' ∈ l) then
    match searchV1 l with
    | some g =>
      ⟨g.y ++ '-' :: (zfill2 g.m ++ '-' :: (zfill2 g.d ++
        ' ' :: (zfill2 g.h ++ ':' :: (zfill2 g.mi ++ [':', '0', '0']))))⟩
    | none => ⟨fmtDT now⟩
  else ⟨fmtDT now⟩

/-! ## Variant 2: `NewsDataConverter.parse_datetime`
Anchored `re.match` against `\d{4}年\d{2}月\d{2}日\d{2}:\d{2}(:\d{2})?`
followed by `datetime.strptime`, with a `document.getElementById`
pre-extraction step; unparseable input falls back to
`datetime.now() - timedelta(days=random.randint(1, 30))`. -/

/-- Numeric value of two ASCII digit characters. -/
def val2 (a b : Char) : ℕ := (a.toNat - 48) * 10 + (b.toNat - 48)

/-- Numeric value of four ASCII digit characters. -/
def val4 (a b c d : Char) : ℕ := val2 a b * 100 + val2 c d

/-- Prefix test for `\d{4}年\d{2}月\d{2}日\d{2}:\d{2}:\d{2}` (`re.match`
with the full-precision pattern; trailing characters allowed). -/
def fullPat : List Char → Bool
  | y1 :: y2 :: y3 :: y4 :: '年' :: m1 :: m2 :: '月' :: d1 :: d2 :: '日' ::
      h1 :: h2 :: ':' :: n1 :: n2 :: ':' :: s1 :: s2 :: _ =>
    isDigitCh y1 && isDigitCh y2 && isDigitCh y3 && isDigitCh y4 &&
    isDigitCh m1 && isDigitCh m2 && isDigitCh d1 && isDigitCh d2 &&
    isDigitCh h1 && isDigitCh h2 && isDigitCh n1 && isDigitCh n2 &&
    isDigitCh s1 && isDigitCh s2
  | _ => false

/-- Prefix test for `\d{4}年\d{2}月\d{2}日\d{2}:\d{2}` (`re.match` with the
reduced-precision pattern). -/
def shortPat : List Char → Bool
  | y1 :: y2 :: y3 :: y4 :: '年' :: m1 :: m2 :: '月' :: d1 :: d2 :: '日' ::
      h1 :: h2 :: ':' :: n1 :: n2 :: _ =>
    isDigitCh y1 && isDigitCh y2 && isDigitCh y3 && isDigitCh y4 &&
    isDigitCh m1 && isDigitCh m2 && isDigitCh d1 && isDigitCh d2 &&
    isDigitCh h1 && isDigitCh h2 && isDigitCh n1 && isDigitCh n2
  | _ => false

/-- `datetime.strptime(s, '%Y年%m月%d日%H:%M:%S')` as a field reader: the
whole string must be exactly the pattern, else `strptime` raises
("unconverted data remains") and the converter falls back. -/
def readFull : List Char → Option DT
  | [y1, y2, y3, y4, '年', m1, m2, '月', d1, d2, '日', h1, h2, ':', n1, n2, ':', s1, s2] =>
    if isDigitCh y1 && isDigitCh y2 && isDigitCh y3 && isDigitCh y4 &&
       isDigitCh m1 && isDigitCh m2 && isDigitCh d1 && isDigitCh d2 &&
       isDigitCh h1 && isDigitCh h2 && isDigitCh n1 && isDigitCh n2 &&
       isDigitCh s1 && isDigitCh s2 then
      some ⟨val4 y1 y2 y3 y4, val2 m1 m2, val2 d1 d2, val2 h1 h2, val2 n1 n2, val2 s1 s2⟩
    else none
  | _ => none

/-- `datetime.strptime(s, '%Y年%m月%d日%H:%M')`: exact-match reader, with
seconds defaulted to 0. -/
def readShort : List Char → Option DT
  | [y1, y2, y3, y4, '年', m1, m2, '月', d1, d2, '日', h1, h2, ':', n1, n2] =>
    if isDigitCh y1 && isDigitCh y2 && isDigitCh y3 && isDigitCh y4 &&
       isDigitCh m1 && isDigitCh m2 && isDigitCh d1 && isDigitCh d2 &&
       isDigitCh h1 && isDigitCh h2 && isDigitCh n1 && isDigitCh n2 then
      some ⟨val4 y1 y2 y3 y4, val2 m1 m2, val2 d1 d2, val2 h1 h2, val2 n1 n2, 0⟩
    else none
  | _ => none

/-- Gregorian leap-year rule (as used by `datetime`). -/
def isLeap (y : ℕ) : Bool := y % 4 = 0 ∧ (y % 100 ≠ 0 ∨ y % 400 = 0)

/-- Number of days in month `m` of year `y`. -/
def daysInMonth (y m : ℕ) : ℕ :=
  if m = 2 then (if isLeap y then 29 else 28)
  else if m = 4 ∨ m = 6 ∨ m = 9 ∨ m = 11 then 30
  else 31

/-- The range checks `datetime.strptime`/the `datetime` constructor perform;
out-of-range fields raise `ValueError` and the converter falls back. -/
def rangesOk (d : DT) : Bool :=
  1 ≤ d.year ∧ 1 ≤ d.month ∧ d.month ≤ 12 ∧ 1 ≤ d.day ∧
  d.day ≤ daysInMonth d.year d.month ∧ d.hour ≤ 23 ∧ d.minute ≤ 59 ∧ d.second ≤ 59

/-- `re.search(r'(\d{4}年\d{2}月\d{2}日\d{2}:\d{2})', s)` anchored at the
head of `l`: on success, the 16-character matched segment. -/
def shortAt : List Char → Option (List Char)
  | y1 :: y2 :: y3 :: y4 :: '年' :: m1 :: m2 :: '月' :: d1 :: d2 :: '日' ::
      h1 :: h2 :: ':' :: n1 :: n2 :: _ =>
    if isDigitCh y1 && isDigitCh y2 && isDigitCh y3 && isDigitCh y4 &&
       isDigitCh m1 && isDigitCh m2 && isDigitCh d1 && isDigitCh d2 &&
       isDigitCh h1 && isDigitCh h2 && isDigitCh n1 && isDigitCh n2 then
      some [y1, y2, y3, y4, '年', m1, m2, '月', d1, d2, '日', h1, h2, ':', n1, n2]
    else none
  | _ => none

/-- Leftmost match of the 16-character date segment (the
`document.getElementById` extraction step). -/
def searchShort : List Char → Option (List Char)
  | [] => none
  | c :: t =>
    match shortAt (c :: t) with
    | some seg => some seg
    | none => searchShort t

/-- The `re.match`/`strptime` cascade of variant 2's `parse_datetime`,
applied to the (possibly pre-extracted) character list. -/
def parseCoreV2 (l : List Char) (fb : DT) : List Char :=
  if fullPat l then
    match readFull l with
    | some dt => if rangesOk dt then fmtDT dt else fmtDT fb
    | none => fmtDT fb
  else if shortPat l then
    match readShort l with
    | some dt => if rangesOk dt then fmtDT dt else fmtDT fb
    | none => fmtDT fb
  else fmtDT fb

/-- `NewsDataConverter.parse_datetime`
(src/scripts/convert_localization_to_news.py:26-52).  `fb` is the oracle
for the fallback instant `datetime.now() - timedelta(days=random.randint(1, 30))`;
the function never raises (every failure path returns the fallback). -/
def parse_datetime_v2 (s : String) (fb : DT) : String :=
  let l0 := s.toList
  let l :=
    if containsSub l0 "document.getElementById".toList then
      match searchShort l0 with
      | some seg => seg
      | none => l0
    else l0
  ⟨parseCoreV2 l fb⟩

/-! ## Shape lemmas: every formatted timestamp is canonical -/

theorem isDigitCh_digitChar10 (n : ℕ) : isDigitCh (digitChar10 n) = true := by
  have h : n % 10 < 10 := Nat.mod_lt _ (by omega)
  unfold digitChar10
  interval_cases h : n % 10 <;> decide

theorem toDigitsF_digits : ∀ (fuel n : ℕ) (acc : List Char),
    (∀ c ∈ acc, isDigitCh c = true) → ∀ c ∈ toDigitsF fuel n acc, isDigitCh c = true := by
  intro fuel
  induction fuel with
  | zero =>
    intro n acc hacc c hc
    simp only [toDigitsF, List.mem_cons] at hc
    rcases hc with rfl | hc
    · exact isDigitCh_digitChar10 n
    · exact hacc c hc
  | succ fuel ih =>
    intro n acc hacc c hc
    rw [toDigitsF] at hc
    split at hc
    · simp only [List.mem_cons] at hc
      rcases hc with rfl | hc
      · exact isDigitCh_digitChar10 n
      · exact hacc c hc
    · refine ih _ _ ?_ c hc
      intro x hx
      simp only [List.mem_cons] at hx
      rcases hx with rfl | hx
      · exact isDigitCh_digitChar10 n
      · exact hacc x hx

theorem toDigits_digits (n : ℕ) : ∀ c ∈ toDigits n, isDigitCh c = true :=
  toDigitsF_digits n n [] (by simp)

theorem toDigitsF_length : ∀ (fuel n : ℕ) (acc : List Char) (k : ℕ),
    n < 10 ^ k → 1 ≤ k → (toDigitsF fuel n acc).length ≤ k + acc.length := by
  intro fuel
  induction fuel with
  | zero =>
    intro n acc k _ hk
    simp only [toDigitsF, List.length_cons]
    omega
  | succ fuel ih =>
    intro n acc k hn hk
    rw [toDigitsF]
    split
    · simp only [List.length_cons]
      omega
    · next hge =>
      have hk2 : 2 ≤ k := by
        by_contra hlt
        have hk1 : k = 1 := by omega
        subst hk1
        norm_num at hn
        omega
      obtain ⟨m, rfl⟩ : ∃ m, k = m + 1 := ⟨k - 1, by omega⟩
      have hdiv : n / 10 < 10 ^ m := by
        apply Nat.div_lt_of_lt_mul
        rw [pow_succ] at hn
        omega
      have hrec := ih (n / 10) (digitChar10 n :: acc) m hdiv (by omega)
      simp only [List.length_cons] at hrec ⊢
      omega

theorem toDigits_length_le {k n : ℕ} (hk : 1 ≤ k) (h : n < 10 ^ k) :
    (toDigits n).length ≤ k := by
  have := toDigitsF_length n n [] k h hk
  simpa using this

theorem toDigitsF_ne_nil : ∀ (fuel n : ℕ) (acc : List Char), toDigitsF fuel n acc ≠ [] := by
  intro fuel
  induction fuel with
  | zero =>
    intro n acc
    simp [toDigitsF]
  | succ fuel ih =>
    intro n acc
    rw [toDigitsF]
    split
    · simp
    · exact ih _ _

theorem toDigits_ne_nil (n : ℕ) : toDigits n ≠ [] := toDigitsF_ne_nil n n []

theorem pad2N_length {n : ℕ} (h : n ≤ 99) : (pad2N n).length = 2 := by
  have h1 : (toDigits n).length ≤ 2 := toDigits_length_le (by omega) (by omega)
  have h2 : 1 ≤ (toDigits n).length := List.length_pos.mpr (toDigits_ne_nil n)
  simp only [pad2N, zfill2, List.length_append, List.length_replicate]
  omega

theorem pad2N_digits (n : ℕ) : ∀ c ∈ pad2N n, isDigitCh c = true := by
  intro c hc
  simp only [pad2N, zfill2, List.mem_append] at hc
  rcases hc with h1 | h2
  · rw [List.eq_of_mem_replicate h1]
    decide
  · exact toDigits_digits n c h2

theorem pad4N_length {n : ℕ} (h : n ≤ 9999) : (pad4N n).length = 4 := by
  have h1 : (toDigits n).length ≤ 4 := toDigits_length_le (by omega) (by omega)
  have h2 : 1 ≤ (toDigits n).length := List.length_pos.mpr (toDigits_ne_nil n)
  simp only [pad4N, List.length_append, List.length_replicate]
  omega

theorem pad4N_digits (n : ℕ) : ∀ c ∈ pad4N n, isDigitCh c = true := by
  intro c hc
  simp only [pad4N, List.mem_append] at hc
  rcases hc with h1 | h2
  · rw [List.eq_of_mem_replicate h1]
    decide
  · exact toDigits_digits n c h2

theorem exists_two {l : List Char} (h : l.length = 2) : ∃ a b, l = [a, b] := by
  match l with
  | [a, b] => exact ⟨a, b, rfl⟩

theorem exists_four {l : List Char} (h : l.length = 4) : ∃ a b c d, l = [a, b, c, d] := by
  match l with
  | [a, b, c, d] => exact ⟨a, b, c, d, rfl⟩

/-- Assembling four-digit and two-digit groups with the canonical
separators always yields a canonically shaped timestamp. -/
theorem canonical_parts {y mo da ho mi se : List Char}
    (hy : y.length = 4) (hmo : mo.length = 2) (hda : da.length = 2)
    (hho : ho.length = 2) (hmi : mi.length = 2) (hse : se.length = 2)
    (dy : ∀ c ∈ y, isDigitCh c = true) (dmo : ∀ c ∈ mo, isDigitCh c = true)
    (dda : ∀ c ∈ da, isDigitCh c = true) (dho : ∀ c ∈ ho, isDigitCh c = true)
    (dmi : ∀ c ∈ mi, isDigitCh c = true) (dse : ∀ c ∈ se, isDigitCh c = true) :
    isCanonical (y ++ '-' :: (mo ++ '-' :: (da ++ ' ' :: (ho ++ ':' :: (mi ++ ':' :: se))))) = true := by
  obtain ⟨y1, y2, y3, y4, rfl⟩ := exists_four hy
  obtain ⟨m1, m2, rfl⟩ := exists_two hmo
  obtain ⟨d1, d2, rfl⟩ := exists_two hda
  obtain ⟨h1, h2, rfl⟩ := exists_two hho
  obtain ⟨n1, n2, rfl⟩ := exists_two hmi
  obtain ⟨s1, s2, rfl⟩ := exists_two hse
  simp only [List.cons_append, List.nil_append, isCanonical, Bool.and_eq_true]
  refine ⟨⟨⟨⟨⟨⟨⟨⟨⟨⟨⟨⟨⟨?_, ?_⟩, ?_⟩, ?_⟩, ?_⟩, ?_⟩, ?_⟩, ?_⟩, ?_⟩, ?_⟩, ?_⟩, ?_⟩, ?_⟩, ?_⟩ <;>
    simp_all

/-- A valid wall-clock instant always formats to a canonical timestamp. -/
theorem fmtDT_canonical {d : DT} (h : d.Valid) : isCanonical (fmtDT d) = true := by
  obtain ⟨h1, h2, h3, h4, h5, h6⟩ := h
  exact canonical_parts (pad4N_length h1) (pad2N_length h2) (pad2N_length h3)
    (pad2N_length h4) (pad2N_length h5) (pad2N_length h6)
    (pad4N_digits _) (pad2N_digits _) (pad2N_digits _)
    (pad2N_digits _) (pad2N_digits _) (pad2N_digits _)

/-! ### Group shapes produced by variant 1's pattern matcher -/

/-- A captured `(\d{1,2})` group: one or two ASCII digits. -/
def Grp12 (l : List Char) : Prop :=
  (1 ≤ l.length ∧ l.length ≤ 2) ∧ ∀ c ∈ l, isDigitCh c = true

theorem grab2_shape {sep : Char} {l m r : List Char}
    (h : grab2 sep l = some (m, r)) : Grp12 m := by
  match l with
  | a :: b :: c :: rest =>
    simp only [grab2] at h
    split at h
    · next hab =>
      cases h
      simp only [Bool.and_eq_true] at hab
      refine ⟨by simp, ?_⟩
      intro x hx
      rcases List.mem_pair.mp hx with rfl | rfl
      · exact hab.1.1
      · exact hab.1.2
    · split at h
      · next hab =>
        cases h
        simp only [Bool.and_eq_true] at hab
        refine ⟨by simp, ?_⟩
        intro x hx
        rcases List.mem_singleton.mp hx with rfl
        exact hab.1
      · cases h
  | [a, b] =>
    simp only [grab2] at h
    split at h
    · next hab =>
      cases h
      simp only [Bool.and_eq_true] at hab
      refine ⟨by simp, ?_⟩
      intro x hx
      rcases List.mem_singleton.mp hx with rfl
      exact hab.1
    · cases h
  | [a] => simp [grab2] at h
  | [] => simp [grab2] at h

theorem grabMin_shape {l m : List Char} (h : grabMin l = some m) : Grp12 m := by
  match l with
  | a :: b :: rest =>
    simp only [grabMin] at h
    split at h
    · next hab =>
      cases h
      simp only [Bool.and_eq_true] at hab
      refine ⟨by simp, ?_⟩
      intro x hx
      rcases List.mem_pair.mp hx with rfl | rfl
      · exact hab.1
      · exact hab.2
    · split at h
      · next ha =>
        cases h
        refine ⟨by simp, ?_⟩
        intro x hx
        rcases List.mem_singleton.mp hx with rfl
        exact ha
      · cases h
  | [a] =>
    simp only [grabMin] at h
    split at h
    · next ha =>
      cases h
      refine ⟨by simp, ?_⟩
      intro x hx
      rcases List.mem_singleton.mp hx with rfl
      exact ha
    · cases h
  | [] => simp [grabMin] at h

/-- Shape of a successful variant-1 match: the year is exactly four digits
and each remaining group is one or two digits. -/
theorem matchAtV1_shape {l : List Char} {g : DTGroups} (h : matchAtV1 l = some g) :
    (g.y.length = 4 ∧ ∀ c ∈ g.y, isDigitCh c = true) ∧
    Grp12 g.m ∧ Grp12 g.d ∧ Grp12 g.h ∧ Grp12 g.mi := by
  match l with
  | y1 :: y2 :: y3 :: y4 :: c :: rest =>
    simp only [matchAtV1] at h
    split at h
    · next hy =>
      simp only [Bool.and_eq_true] at hy
      split at h
      · next m r2 hm =>
        split at h
        · next d r3 hd2 =>
          split at h
          · next ho r4 hh =>
            split at h
            · next mi hmi =>
              cases h
              refine ⟨⟨rfl, ?_⟩, grab2_shape hm, grab2_shape hd2, grab2_shape hh, grabMin_shape hmi⟩
              intro x hx
              simp only [List.mem_cons, List.not_mem_nil, or_false] at hx
              rcases hx with rfl | rfl | rfl | rfl
              · exact hy.1.1.1.1
              · exact hy.1.1.1.2
              · exact hy.1.1.2
              · exact hy.1.2
            · cases h
          · cases h
        · cases h
      · cases h
    · cases h
  | [] => simp [matchAtV1] at h
  | [_] => simp [matchAtV1] at h
  | [_, _] => simp [matchAtV1] at h
  | [_, _, _] => simp [matchAtV1] at h
  | [_, _, _, _] => simp [matchAtV1] at h

theorem searchV1_shape {l : List Char} {g : DTGroups} (h : searchV1 l = some g) :
    (g.y.length = 4 ∧ ∀ c ∈ g.y, isDigitCh c = true) ∧
    Grp12 g.m ∧ Grp12 g.d ∧ Grp12 g.h ∧ Grp12 g.mi := by
  induction l with
  | nil => simp [searchV1] at h
  | cons c t ih =>
    simp only [searchV1] at h
    split at h
    · next hm =>
      cases h
      exact matchAtV1_shape hm
    · exact ih h

theorem zfill2_shape {l : List Char} (h : Grp12 l) :
    (zfill2 l).length = 2 ∧ ∀ c ∈ zfill2 l, isDigitCh c = true := by
  obtain ⟨⟨h1, h2⟩, hd⟩ := h
  constructor
  · simp only [zfill2, List.length_append, List.length_replicate]
    omega
  · intro c hc
    simp only [zfill2, List.mem_append] at hc
    rcases hc with hr | hl
    · rw [List.eq_of_mem_replicate hr]
      decide
    · exact hd c hl

/-- Every output of variant 1's `parse_datetime` is a canonically shaped
`YYYY-MM-DD HH:MM:SS` string. -/
theorem parse_datetime_v1_canonical (s : String) {now : DT} (h : now.Valid) :
    isCanonical (parse_datetime_v1 s now).toList = true := by
  simp only [parse_datetime_v1]
  split
  · split
    · next g hg =>
      obtain ⟨⟨hy4, hyd⟩, hm, hd2, hh, hmi⟩ := searchV1_shape hg
      show isCanonical (g.y ++ '-' :: (zfill2 g.m ++ '-' :: (zfill2 g.d ++
        ' ' :: (zfill2 g.h ++ ':' :: (zfill2 g.mi ++ [':', '0', '0']))))) = true
      have : (zfill2 g.mi ++ [':', '0', '0']) = zfill2 g.mi ++ ':' :: ['0', '0'] := rfl
      rw [this]
      exact canonical_parts hy4 (zfill2_shape hm).1 (zfill2_shape hd2).1
        (zfill2_shape hh).1 (zfill2_shape hmi).1 (by decide)
        hyd (zfill2_shape hm).2 (zfill2_shape hd2).2
        (zfill2_shape hh).2 (zfill2_shape hmi).2 (by decide)
    · exact fmtDT_canonical h
  · exact fmtDT_canonical h

/-! ### Canonicity for variant 2 -/

theorem digitCh_toNat {c : Char} (h : isDigitCh c = true) :
    48 ≤ c.toNat ∧ c.toNat ≤ 57 := by
  have h' := of_decide_eq_true h
  exact ⟨h'.1, h'.2⟩

theorem val2_le {a b : Char} (ha : isDigitCh a = true) (hb : isDigitCh b = true) :
    val2 a b ≤ 99 := by
  have h1 := digitCh_toNat ha
  have h2 := digitCh_toNat hb
  simp only [val2]
  omega

theorem val4_le {a b c d : Char} (ha : isDigitCh a = true) (hb : isDigitCh b = true)
    (hc : isDigitCh c = true) (hd : isDigitCh d = true) : val4 a b c d ≤ 9999 := by
  have h1 := val2_le ha hb
  have h2 := val2_le hc hd
  simp only [val4]
  omega

theorem readFull_valid {l : List Char} {dt : DT} (h : readFull l = some dt) : dt.Valid := by
  rw [readFull.eq_def] at h
  split at h
  · split at h
    · next hd =>
      cases h
      simp only [Bool.and_eq_true] at hd
      obtain ⟨⟨⟨⟨⟨⟨⟨⟨⟨⟨⟨⟨⟨e1, e2⟩, e3⟩, e4⟩, e5⟩, e6⟩, e7⟩, e8⟩, e9⟩, e10⟩, e11⟩, e12⟩, e13⟩, e14⟩ := hd
      exact ⟨val4_le e1 e2 e3 e4, val2_le e5 e6, val2_le e7 e8,
        val2_le e9 e10, val2_le e11 e12, val2_le e13 e14⟩
    · exact Option.noConfusion h
  · exact Option.noConfusion h

theorem readShort_valid {l : List Char} {dt : DT} (h : readShort l = some dt) : dt.Valid := by
  rw [readShort.eq_def] at h
  split at h
  · split at h
    · next hd =>
      cases h
      simp only [Bool.and_eq_true] at hd
      obtain ⟨⟨⟨⟨⟨⟨⟨⟨⟨⟨⟨e1, e2⟩, e3⟩, e4⟩, e5⟩, e6⟩, e7⟩, e8⟩, e9⟩, e10⟩, e11⟩, e12⟩ := hd
      exact ⟨val4_le e1 e2 e3 e4, val2_le e5 e6, val2_le e7 e8,
        val2_le e9 e10, val2_le e11 e12, by simp⟩
    · exact Option.noConfusion h
  · exact Option.noConfusion h

theorem parseCoreV2_canonical (l : List Char) {fb : DT} (h : fb.Valid) :
    isCanonical (parseCoreV2 l fb) = true := by
  unfold parseCoreV2
  split
  · split
    · next dt hdt =>
      split
      · exact fmtDT_canonical (readFull_valid hdt)
      · exact fmtDT_canonical h
    · exact fmtDT_canonical h
  · split
    · split
      · next dt hdt =>
        split
        · exact fmtDT_canonical (readShort_valid hdt)
        · exact fmtDT_canonical h
      · exact fmtDT_canonical h
    · exact fmtDT_canonical h

/-- Every output of variant 2's `parse_datetime` is a canonically shaped
`YYYY-MM-DD HH:MM:SS` string. -/
theorem parse_datetime_v2_canonical (s : String) {fb : DT} (h : fb.Valid) :
    isCanonical (parse_datetime_v2 s fb).toList = true := by
  simp only [parse_datetime_v2]
  exact parseCoreV2_canonical _ h

/-! ## Variant 1: category classifier (`analyze_category_with_ai`) -/

/-- The fixed category list of variant 1 (`self.categories`). -/
def categoriesV1 : List String :=
  ["政治", "经济", "社会", "科技", "体育", "娱乐", "国际", "军事", "教育", "健康"]

/-- `keyword_category_map` of `analyze_category_with_ai`, in insertion
order (Python dicts preserve it). -/
def keywordCategoryMap : List (String × List String) :=
  [("政治", ["政治", "政府", "政策", "领导", "党", "国家", "外交", "会议", "决策", "治理"]),
   ("经济", ["经济", "股市", "股指", "金融", "投资", "贸易", "GDP", "通胀", "银行", "企业", "上市", "板块", "涨幅", "交易"]),
   ("科技", ["科技", "AI", "人工智能", "互联网", "5G", "芯片", "创新", "技术", "数字", "智能"]),
   ("社会", ["社会", "民生", "教育", "医疗", "就业", "住房", "环境", "安全", "文化"]),
   ("国际", ["国际", "美国", "欧洲", "日本", "韩国", "俄罗斯", "全球", "世界"]),
   ("军事", ["军事", "国防", "军队", "战争", "武器", "安全"]),
   ("体育", ["体育", "比赛", "运动", "足球", "篮球", "奥运"]),
   ("娱乐", ["娱乐", "明星", "电影", "音乐", "综艺", "演出"]),
   ("健康", ["健康", "医疗", "疫情", "病毒", "治疗", "药物"]),
   ("教育", ["教育", "学校", "大学", "招生", "考试", "学生"])]

/-- The text scored by the classifier: `title + " " + content[:500]`. -/
def classifierText (title content : String) : List Char :=
  title.toList ++ ' ' :: content.toList.take 500

/-- Keyword score of one category: sum of substring-occurrence counts. -/
def categoryScore (kws : List String) (text : List Char) : ℕ :=
  kws.foldr (fun k acc => countOcc k.toList text + acc) 0

/-- `category_scores`: categories with positive score, in map order. -/
def categoryScores (text : List Char) : List (String × ℕ) :=
  (keywordCategoryMap.map (fun p => (p.1, categoryScore p.2 text))).filter
    (fun q => 0 < q.2)

/-- Python `max(items, key=lambda x: x[1])[0]`: the key of the first
maximal element (strictly greater scores replace the running best). -/
def pyMaxFst (b : String × ℕ) : List (String × ℕ) → String
  | [] => b.1
  | y :: ys => if b.2 < y.2 then pyMaxFst y ys else pyMaxFst b ys

/-- `NewsConverter.analyze_category_with_ai` (src/convert_news.py:24-55). -/
def analyze_category_with_ai (title content : String) : String :=
  match categoryScores (classifierText title content) with
  | [] => "社会"
  | x :: xs => pyMaxFst x xs

theorem pyMaxFst_mem (b : String × ℕ) (l : List (String × ℕ)) :
    pyMaxFst b l ∈ b.1 :: l.map Prod.fst := by
  induction l generalizing b with
  | nil => simp [pyMaxFst]
  | cons y ys ih =>
    simp only [pyMaxFst]
    by_cases h : b.2 < y.2
    · rw [if_pos h]
      have := ih y
      simp only [List.map_cons, List.mem_cons] at this ⊢
      tauto
    · rw [if_neg h]
      have := ih b
      simp only [List.map_cons, List.mem_cons] at this ⊢
      tauto

/-- The classifier always returns a member of the fixed category set. -/
theorem analyze_category_mem (title content : String) :
    analyze_category_with_ai title content ∈ categoriesV1 := by
  unfold analyze_category_with_ai
  split
  · simp [categoriesV1]
  · next x xs hs =>
    have key : pyMaxFst x xs ∈ keywordCategoryMap.map Prod.fst := by
      have h1 : pyMaxFst x xs ∈ (x :: xs).map Prod.fst := by
        simpa using pyMaxFst_mem x xs
      rw [List.mem_map] at h1
      obtain ⟨q, hq, hqe⟩ := h1
      rw [← hs] at hq
      unfold categoryScores at hq
      have hq2 := List.mem_of_mem_filter hq
      rw [List.mem_map] at hq2
      obtain ⟨p, hp, hpe⟩ := hq2
      rw [List.mem_map]
      exact ⟨p, hp, by rw [← hqe, ← hpe]⟩
    simp only [keywordCategoryMap, List.map_cons, List.map_nil, List.mem_cons,
      List.not_mem_nil, or_false] at key
    rcases key with h | h | h | h | h | h | h | h | h | h <;> rw [h] <;> simp [categoriesV1]

theorem categoryScore_zero {kws : List String} {text : List Char}
    (h : ∀ k ∈ kws, countOcc k.toList text = 0) : categoryScore kws text = 0 := by
  unfold categoryScore
  induction kws with
  | nil => rfl
  | cons k ks ih =>
    simp only [List.foldr_cons]
    rw [h k (by simp), ih (fun x hx => h x (by simp [hx]))]

/-- When no keyword of any category occurs in the scored text, the
classifier returns the fixed default `"社会"`. -/
theorem analyze_category_default (title content : String)
    (h : ∀ p ∈ keywordCategoryMap, ∀ k ∈ p.2,
      countOcc k.toList (classifierText title content) = 0) :
    analyze_category_with_ai title content = "社会" := by
  have hz : ∀ p ∈ keywordCategoryMap,
      categoryScore p.2 (classifierText title content) = 0 :=
    fun p hp => categoryScore_zero (h p hp)
  have hempty : categoryScores (classifierText title content) = [] := by
    unfold categoryScores
    rw [List.filter_eq_nil_iff]
    intro q hq
    rw [List.mem_map] at hq
    obtain ⟨p, hp, hpe⟩ := hq
    rw [← hpe]
    simp only [decide_eq_true_eq, not_lt, Nat.le_zero]
    exact hz p hp
  unfold analyze_category_with_ai
  rw [hempty]

/-! ## Variant 1: summary generator (`generate_summary`) -/

/-- The greedy sentence loop of `generate_summary`: append
`sentence + "。"` while `len(summary + sentence) <= max_length` and the
stripped sentence is non-empty; `break` at the first failure. -/
def sumLoop : List (List Char) → List Char → ℕ → List Char
  | [], acc, _ => acc
  | s :: rest, acc, m =>
    if acc.length + s.length ≤ m ∧ pyStrip s ≠ [] then
      sumLoop rest (acc ++ s ++ ['。']) m
    else acc

/-- `NewsConverter.generate_summary` (src/convert_news.py:57-72). -/
def generate_summary (content : String) (max_length : ℕ) : String :=
  let clean := removeBrackets (removeWs content.toList)
  let sentences := splitTerm clean []
  let s := sumLoop sentences [] max_length
  if s ≠ [] then ⟨pyStrip s⟩ else ⟨content.toList.take max_length ++ ['.', '.', '.']⟩

theorem sumLoop_length {m : ℕ} :
    ∀ (sents : List (List Char)) (acc : List Char),
      acc.length ≤ m + 1 → (sumLoop sents acc m).length ≤ m + 1
  | [], acc, h => h
  | s :: rest, acc, h => by
    simp only [sumLoop]
    split
    · next hc =>
      apply sumLoop_length rest
      simp only [List.length_append, List.length_singleton]
      omega
    · exact h

theorem pyStrip_length (l : List Char) : (pyStrip l).length ≤ l.length := by
  unfold pyStrip
  calc ((l.dropWhile pySpace).reverse.dropWhile pySpace).reverse.length
      = ((l.dropWhile pySpace).reverse.dropWhile pySpace).length := List.length_reverse _
    _ ≤ (l.dropWhile pySpace).reverse.length := (List.dropWhile_sublist pySpace).length_le
    _ = (l.dropWhile pySpace).length := List.length_reverse _
    _ ≤ l.length := (List.dropWhile_sublist pySpace).length_le

/-- Length bound on `generate_summary`: at most `max_length + 1` when the
summary was assembled from sentences (the terminal `"。"` is appended after
the length check), and at most `max_length + 3` in the raw-prefix fallback
(the `"..."` marker). -/
theorem generate_summary_length (content : String) (m : ℕ) :
    (generate_summary content m).toList.length ≤ m + 3 ∧
    (sumLoop (splitTerm (removeBrackets (removeWs content.toList)) []) [] m ≠ [] →
      (generate_summary content m).toList.length ≤ m + 1) := by
  simp only [generate_summary]
  constructor
  · split
    · next hne =>
      have h1 := @sumLoop_length m
        (splitTerm (removeBrackets (removeWs content.toList)) []) [] (by simp)
      have h2 := pyStrip_length (sumLoop (splitTerm (removeBrackets (removeWs content.toList)) []) [] m)
      show (pyStrip _).length ≤ m + 3
      omega
    · show (content.toList.take m ++ ['.', '.', '.']).length ≤ m + 3
      simp only [List.length_append]
      have := List.length_take_le m content.toList
      simp only [List.length_cons, List.length_nil]
      omega
  · intro hne
    rw [if_pos hne]
    have h1 := @sumLoop_length m
      (splitTerm (removeBrackets (removeWs content.toList)) []) [] (by simp)
    have h2 := pyStrip_length (sumLoop (splitTerm (removeBrackets (removeWs content.toList)) []) [] m)
    show (pyStrip _).length ≤ m + 1
    omega

theorem dropWhile_no {p : Char → Bool} {l : List Char}
    (h : ∀ c ∈ l, p c = false) : l.dropWhile p = l := by
  cases l with
  | nil => rfl
  | cons c t =>
    rw [List.dropWhile_cons_of_neg]
    simp [h c (by simp)]

theorem pyStrip_id {l : List Char} (h : ∀ c ∈ l, pySpace c = false) :
    pyStrip l = l := by
  unfold pyStrip
  rw [dropWhile_no h, dropWhile_no (fun c hc => h c (List.mem_reverse.mp hc)),
    List.reverse_reverse]

theorem removeWs_id {l : List Char} (h : ∀ c ∈ l, pySpace c = false) :
    removeWs l = l := by
  unfold removeWs
  rw [List.filter_eq_self]
  intro c hc
  simp [h c hc]

theorem removeBracketsF_id : ∀ (fuel : ℕ) {l : List Char}, (∀ c ∈ l, c ≠ '【') →
    removeBracketsF fuel l = l := by
  intro fuel
  induction fuel with
  | zero =>
    intro l _
    rfl
  | succ fuel ih =>
    intro l h
    cases l with
    | nil => rfl
    | cons c t =>
      rw [removeBracketsF, if_neg (h c (by simp))]
      rw [ih (fun x hx => h x (by simp [hx]))]

theorem removeBrackets_id {l : List Char} (h : ∀ c ∈ l, c ≠ '【') :
    removeBrackets l = l := removeBracketsF_id l.length h

theorem splitTerm_no_term {S : List Char} (rest cur : List Char)
    (h : ∀ c ∈ S, isTermCh c = false) {t : Char} (ht : isTermCh t = true) :
    splitTerm (S ++ t :: rest) cur = (cur.reverse ++ S) :: splitTerm rest [] := by
  induction S generalizing cur with
  | nil =>
    simp only [List.nil_append, splitTerm, ht, if_true, List.append_nil]
  | cons c S' ih =>
    simp only [List.cons_append, splitTerm, h c (by simp), if_false,
      Bool.false_eq_true, List.append_eq]
    rw [ih _ (fun x hx => h x (by simp [hx]))]
    simp

/-- The body consisting of exactly one sentence (followed by its terminal
marker) whose length is within the budget is returned verbatim by
`generate_summary`, with no truncation marker. -/
theorem generate_summary_single (S : List Char) (m : ℕ)
    (hne : S ≠ []) (hlen : S.length ≤ m)
    (hok : ∀ c ∈ S, pySpace c = false ∧ c ≠ '【' ∧ isTermCh c = false) :
    generate_summary ⟨S ++ ['。']⟩ m = ⟨S ++ ['。']⟩ := by
  have hns : ∀ c ∈ S ++ ['。'], pySpace c = false := by
    intro c hc
    rcases List.mem_append.mp hc with h1 | h2
    · exact (hok c h1).1
    · simp only [List.mem_singleton] at h2
      subst h2
      decide
  have h1 : removeWs (String.toList ⟨S ++ ['。']⟩) = S ++ ['。'] := removeWs_id hns
  have h2 : removeBrackets (S ++ ['。']) = S ++ ['。'] := by
    apply removeBrackets_id
    intro c hc
    rcases List.mem_append.mp hc with ha | hb
    · exact (hok c ha).2.1
    · simp only [List.mem_singleton] at hb
      subst hb
      decide
  have h3 : splitTerm (S ++ ['。']) [] = [S, []] := by
    have := @splitTerm_no_term S [] [] (fun c hc => (hok c hc).2.2) '。' (by decide)
    simpa [splitTerm] using this
  have h4 : pyStrip S = S := pyStrip_id (fun c hc => (hok c hc).1)
  have h5 : sumLoop [S, []] [] m = S ++ ['。'] := by
    rw [sumLoop, if_pos ⟨by simpa using hlen, by rw [h4]; exact hne⟩]
    rw [sumLoop, if_neg (by simp [pyStrip])]
    simp
  have h1' : removeWs (S ++ ['。']) = S ++ ['。'] := removeWs_id hns
  show (if sumLoop (splitTerm (removeBrackets (removeWs (S ++ ['。']))) []) [] m ≠ [] then
          (⟨pyStrip (sumLoop (splitTerm (removeBrackets (removeWs (S ++ ['。']))) []) [] m)⟩ : String)
        else ⟨(S ++ ['。']).take m ++ ['.', '.', '.']⟩) = ⟨S ++ ['。']⟩
  rw [h1', h2, h3, h5]
  rw [if_pos (by simp)]
  rw [pyStrip_id hns]

/-! ## Hotness scorers -/

/-- Synthetic engagement statistics (the `generate_random_stats` draw,
supplied as an oracle). -/
structure Stats where
  view_count : ℕ
  like_count : ℕ
  comment_count : ℕ
  share_count : ℕ

/-- Python's `round` to an integer: nearest, ties to even. -/
def pyRoundInt (q : ℚ) : ℤ :=
  if q - ⌊q⌋ < 1 / 2 then ⌊q⌋
  else if 1 / 2 < q - ⌊q⌋ then ⌊q⌋ + 1
  else if ⌊q⌋ % 2 = 0 then ⌊q⌋ else ⌊q⌋ + 1

/-- Python `round(x, 1)`. -/
def pyRound1 (q : ℚ) : ℚ := (pyRoundInt (q * 10) : ℚ) / 10

/-- Python `round(x, 2)`. -/
def pyRound2 (q : ℚ) : ℚ := (pyRoundInt (q * 100) : ℚ) / 100

/-- `NewsConverter.calculate_hotness_score` (src/convert_news.py:116-123):
`view*0.1 + like*2 + comment*3 + share*5`, rounded to one decimal digit.
Its only input is the stats dictionary — the record's age never enters. -/
def calculate_hotness_score (stats : Stats) : ℚ :=
  pyRound1 (stats.view_count * (1 / 10) + stats.like_count * 2 +
    stats.comment_count * 3 + stats.share_count * 5)

/-- Does a string parse as `'%Y-%m-%d %H:%M:%S'` with in-range fields
(`datetime.strptime` inside variant 2's hotness scorer)? -/
def strptimeStd (l : List Char) : Option DT :=
  match l with
  | [y1, y2, y3, y4, '-', m1, m2, '-', d1, d2, ' ', h1, h2, ':', n1, n2, ':', s1, s2] =>
    if isDigitCh y1 && isDigitCh y2 && isDigitCh y3 && isDigitCh y4 &&
       isDigitCh m1 && isDigitCh m2 && isDigitCh d1 && isDigitCh d2 &&
       isDigitCh h1 && isDigitCh h2 && isDigitCh n1 && isDigitCh n2 &&
       isDigitCh s1 && isDigitCh s2 then
      let dt : DT := ⟨val4 y1 y2 y3 y4, val2 m1 m2, val2 d1 d2, val2 h1 h2, val2 n1 n2, val2 s1 s2⟩
      if rangesOk dt then some dt else none
    else none
  | _ => none

/-- `NewsDataConverter.calculate_hotness_score`
(src/scripts/convert_localization_to_news.py:69-88).  `daysOld` is the
oracle for `(datetime.now() - pub_date).days` and `uniformDraw` for
`random.uniform(10.0, 1000.0)` in the exception fallback. -/
def calculate_hotness_score_v2 (stats : Stats) (published_at : String)
    (daysOld : ℤ) (uniformDraw : ℚ) : ℚ :=
  match strptimeStd published_at.toList with
  | some _ =>
    let base : ℚ := stats.view_count * 1 + stats.like_count * 5 +
      stats.comment_count * 3 + stats.share_count * 10
    let timeFactor : ℚ := max (1 / 10) (1 - (daysOld : ℚ) * (1 / 10))
    pyRound2 (base * timeFactor)
  | none => pyRound2 uniformDraw

/-! ## Variant 1: `extract_domain_name` -/

/-- Is `c` legal inside a URL scheme after the first character? -/
def schemeCh (c : Char) : Bool :=
  ('a' ≤ c ∧ c ≤ 'z') ∨ ('A' ≤ c ∧ c ≤ 'Z') ∨ ('0' ≤ c ∧ c ≤ '9') ∨
  c = '+' ∨ c = '-' ∨ c = '.'

/-- Is `c` legal as the first character of a URL scheme? -/
def schemeH (c : Char) : Bool := ('a' ≤ c ∧ c ≤ 'z') ∨ ('A' ≤ c ∧ c ≤ 'Z')

/-- Split a `scheme:` head off the URL, as `urllib.parse.urlparse` does. -/
def dropScheme (l : List Char) : List Char :=
  match l.takeWhile (fun c => c ≠ ':') , l.dropWhile (fun c => c ≠ ':') with
  | sch, ':' :: rest =>
    match sch with
    | [] => l
    | c0 :: cs => if schemeH c0 && cs.all schemeCh then rest else l
  | _, _ => l

/-- The `netloc` component of `urlparse`: present only after a leading
`"//"`, ending at the first `/`, `?` or `#`. -/
def netlocOf (l : List Char) : List Char :=
  let rest := dropScheme l
  if leadsWith ['/', '/'] rest then
    (rest.drop 2).takeWhile (fun c => ¬(c = '/' ∨ c = '?' ∨ c = '#'))
  else []

/-- `NewsConverter.extract_domain_name` (src/convert_news.py:95-105):
the URL's host with a leading `"www."` stripped. -/
def extract_domain_name (url : String) : String :=
  let domain := netlocOf url.toList
  if leadsWith "www.".toList domain then ⟨domain.drop 4⟩ else ⟨domain⟩

/-! ## Variant 2: `clean_text`, `extract_tags` -/

/-- `re.sub(r'\r\n|\r|\n', '\n', text)` (leftmost alternative first). -/
def normNewlines : List Char → List Char
  | [] => []
  | '\r' :: '\n' :: t => '\n' :: normNewlines t
  | '\r' :: t => '\n' :: normNewlines t
  | c :: t => c :: normNewlines t

/-- `re.sub(r'\n+', '\n', text)`: one pass tracking whether the previous
character was already a (kept) newline. -/
def collapseNlAux : List Char → Bool → List Char
  | [], _ => []
  | c :: t, prevNl =>
    if c = '\n' then
      if prevNl then collapseNlAux t true else '\n' :: collapseNlAux t true
    else c :: collapseNlAux t false

/-- `re.sub(r'\n+', '\n', text)`. -/
def collapseNl (l : List Char) : List Char := collapseNlAux l false

/-- `NewsDataConverter.clean_text`
(src/scripts/convert_localization_to_news.py:104-114). -/
def clean_text (s : String) : String :=
  if s = "" then ""
  else ⟨pyStrip (collapseNl (normNewlines s.toList))⟩

/-- JSON string escaping as `json.dumps(..., ensure_ascii=False)` performs
it: backslash, double quote and ASCII control characters escaped, all other
characters kept verbatim. -/
def jsonEscChar (c : Char) : List Char :=
  if c = '"' then ['\\', '"']
  else if c = '\\' then ['\\', '\\']
  else if c = '\n' then ['\\', 'n']
  else if c = '\t' then ['\\', 't']
  else if c = '\r' then ['\\', 'r']
  else if c = '\x08' then ['\\', 'b']
  else if c = '\x0c' then ['\\', 'f']
  else if c.toNat < 32 then
    let hx := fun (n : ℕ) => if n < 10 then Char.ofNat (48 + n) else Char.ofNat (87 + n)
    ['\\', 'u', '0', '0', hx (c.toNat / 16), hx (c.toNat % 16)]
  else [c]

/-- `json.dumps` of a list of strings with `ensure_ascii=False` and
default separators. -/
def jsonDumpsStrList (l : List String) : String :=
  "[" ++ String.intercalate ", "
    (l.map (fun s => "\"" ++ ⟨s.toList.flatMap jsonEscChar⟩ ++ "\"")) ++ "]"

/-- The pool `additional_tags` of `extract_tags`. -/
def additionalTags : List String := ["热点", "新闻", "重要", "关注"]

/-- The tag list built by `extract_tags` before serialization; `sample` is
the oracle for `random.sample(additional_tags, k=random.randint(0, 2))`. -/
def tagListOf (keyword category : String) (sample : List String) : List String :=
  (if keyword ≠ "" then [keyword] else []) ++
    (if category ≠ "" then [category] else []) ++ sample

/-- `NewsDataConverter.extract_tags`
(src/scripts/convert_localization_to_news.py:90-102). -/
def extract_tags (keyword category : String) (sample : List String) : String :=
  jsonDumpsStrList (tagListOf keyword category sample)

/-- `random.choice(l)` modelled by an oracle index (`getD` with a dummy
default; validity asks the index to be in range). -/
def pyChoice (l : List String) (i : ℕ) : String := l.getD i ""

theorem pyChoice_mem {l : List String} {i : ℕ} (h : i < l.length) :
    pyChoice l i ∈ l := by
  unfold pyChoice
  rw [List.getD_eq_getElem l _ h]
  exact List.getElem_mem h

/-! ## Data model -/

/-- A source record: the Chinese-keyed fields both converters read with
`item.get(key, "")`. -/
structure SourceItem where
  keyword : String
  title : String
  image : String
  summary : String
  source : String
  publish_time : String
  content : String
  url : String

/-- The normalized news record both converters emit (the output contract;
field set identical in the two variants). -/
structure NewsRecord where
  title : String
  content : String
  summary : String
  description : String
  source : String
  category : String
  published_at : String
  created_by : Option String
  is_active : Bool
  source_type : String
  rss_source_id : Option ℕ
  link : String
  guid : String
  author : String
  image_url : String
  tags : String
  language : String
  view_count : ℕ
  like_count : ℕ
  comment_count : ℕ
  share_count : ℕ
  hotness_score : ℚ
  status : String
  is_processed : Bool

/-- `self.default_authors` of variant 1. -/
def defaultAuthors : List String := ["记者", "编辑", "通讯员", "特约记者"]

/-- The fixed category list of variant 2 (`self.categories`). -/
def categoriesV2 : List String :=
  ["政治", "经济", "科技", "体育", "娱乐", "社会", "国际",
   "军事", "教育", "健康", "环境", "文化", "旅游", "财经"]

/-- The impure draws variant 1's `convert_news_item` makes, as one oracle:
the wall clock, `generate_random_stats`, `random.choice` over the author
pool, `hashlib.md5` and the guid timestamp salt. -/
structure EnvV1 where
  now : DT
  stats : Stats
  authorIdx : ℕ
  md5hex : String → String
  tsSalt : String

/-- Ranges the library guarantees for the variant-1 oracle. -/
def EnvV1.Valid (e : EnvV1) : Prop :=
  e.now.Valid ∧ e.authorIdx < defaultAuthors.length

/-- The impure draws variant 2's `convert_news_item` makes, as one oracle. -/
structure EnvV2 where
  fb : DT
  stats : Stats
  catIdx : ℕ
  sample : List String
  daysOld : ℤ
  uniformDraw : ℚ
  md5hex : String → String
  isoSalt : String

/-- Ranges the library guarantees for the variant-2 oracle:
`random.choice` index in range, `random.sample` drawn from the
`additional_tags` pool, fallback instant a real wall-clock value. -/
def EnvV2.Valid (e : EnvV2) : Prop :=
  e.fb.Valid ∧ e.catIdx < categoriesV2.length ∧ ∀ t ∈ e.sample, t ∈ additionalTags

/-- `NewsConverter.convert_news_item` (src/convert_news.py:125-181).
Raises `ValueError("正文为空，跳过此条新闻")` — modelled as `Except.error` —
when the body is empty or whitespace-only; otherwise assembles the record. -/
def convert_news_item_v1 (item : SourceItem) (env : EnvV1) :
    Except String NewsRecord :=
  if item.content = "" ∨ pyStrip item.content.toList = [] then
    .error "正文为空，跳过此条新闻"
  else
    let category := analyze_category_with_ai item.title item.content
    let summary := generate_summary item.content 200
    let source_name := if item.source = "" then extract_domain_name item.url else item.source
    .ok
      { title := item.title
        content := item.content
        summary := summary
        description := summary
        source := source_name
        category := category
        published_at := parse_datetime_v1 item.publish_time env.now
        created_by := none
        is_active := true
        source_type := "manual"
        rss_source_id := none
        link := item.url
        guid := env.md5hex (item.url ++ item.title ++ env.tsSalt)
        author := pyChoice defaultAuthors env.authorIdx
        image_url := ""
        tags := jsonDumpsStrList [category, category, "热点"]
        language := "zh"
        view_count := env.stats.view_count
        like_count := env.stats.like_count
        comment_count := env.stats.comment_count
        share_count := env.stats.share_count
        hotness_score := calculate_hotness_score env.stats
        status := "published"
        is_processed := true }

/-- `NewsDataConverter.convert_news_item`
(src/scripts/convert_localization_to_news.py:116-172).  No empty-body
check: every source record yields a record. -/
def convert_news_item_v2 (item : SourceItem) (env : EnvV2) : NewsRecord :=
  let published_at := parse_datetime_v2 item.publish_time env.fb
  { title := clean_text item.title
    content := clean_text item.content
    summary := clean_text item.summary
    description := clean_text item.summary
    source := if item.source = "" then "未知来源" else item.source
    category :=
      if categoriesV2.contains item.keyword then item.keyword
      else pyChoice categoriesV2 env.catIdx
    published_at := published_at
    created_by := none
    is_active := true
    source_type := "manual"
    rss_source_id := none
    link := item.url
    guid := env.md5hex (item.title ++ "_" ++ item.source ++ "_" ++ env.isoSalt)
    author := ""
    image_url := item.image
    tags := extract_tags item.keyword item.keyword env.sample
    language := "zh"
    view_count := env.stats.view_count
    like_count := env.stats.like_count
    comment_count := env.stats.comment_count
    share_count := env.stats.share_count
    hotness_score := calculate_hotness_score_v2 env.stats published_at env.daysOld env.uniformDraw
    status := "published"
    is_processed := true }

/-! ## Loaders and batch pipelines -/

/-- A parsed JSON document. -/
inductive Json where
  | null : Json
  | bool (b : Bool) : Json
  | num (n : ℤ) : Json
  | str (s : String) : Json
  | arr (l : List Json) : Json
  | obj (fields : List (String × Json)) : Json

/-- Key lookup in a JSON object. -/
def lookupJ : List (String × Json) → String → Option Json
  | [], _ => none
  | (k, v) :: t, key => if k = key then some v else lookupJ t key

/-- `item.get(key, "")` restricted to string payloads; a non-string payload
makes the per-record conversion fail downstream (modelled as `none`). -/
def getStrField (fields : List (String × Json)) (key : String) : Option String :=
  match lookupJ fields key with
  | none => some ""
  | some (.str s) => some s
  | some _ => none

/-- View a JSON value as a source record (a JSON object whose present
fields are strings); anything else takes the per-record failure path. -/
def jsonToItem : Json → Option SourceItem
  | .obj fields => do
    let kw ← getStrField fields "关键词"
    let title ← getStrField fields "标题"
    let image ← getStrField fields "图片"
    let summ ← getStrField fields "简介"
    let src ← getStrField fields "来源"
    let pt ← getStrField fields "发布时间"
    let content ← getStrField fields "正文"
    let url ← getStrField fields "页面网址"
    pure ⟨kw, title, image, summ, src, pt, content, url⟩
  | _ => none

/-- Embedding of a source record back into JSON (used to state batch-level
facts about concrete inputs). -/
def itemToJson (item : SourceItem) : Json :=
  .obj [("关键词", .str item.keyword), ("标题", .str item.title),
        ("图片", .str item.image), ("简介", .str item.summary),
        ("来源", .str item.source), ("发布时间", .str item.publish_time),
        ("正文", .str item.content), ("页面网址", .str item.url)]

/-- Result of `open` + `json.load`: missing file, malformed JSON, or a
parsed document. -/
inductive ReadResult where
  | notFound : ReadResult
  | badJson : ReadResult
  | parsed (j : Json) : ReadResult

/-- The batch-level failures the entry points report. -/
inductive ConvErr where
  | notFound : ConvErr
  | parseErr : ConvErr
  | formatErr : ConvErr
  | typeErr : ConvErr
deriving DecidableEq

/-- A default oracle so the per-record oracle stream can be consumed
positionally. -/
def defEnvV1 : EnvV1 := ⟨⟨2025, 1, 1, 0, 0, 0⟩, ⟨0, 0, 0, 0⟩, 0, fun _ => "", ""⟩

/-- Variant 1's conversion loop (src/convert_news.py:197-215): per-record
failures are logged and skipped; an empty-body `ValueError` increments the
dedicated skip counter.  Returns (converted records, skip count). -/
def processV1 : List Json → List EnvV1 → List NewsRecord × ℕ
  | [], _ => ([], 0)
  | j :: t, envs =>
    let env := envs.headD defEnvV1
    let rest := processV1 t envs.tail
    match jsonToItem j with
    | some item =>
      match convert_news_item_v1 item env with
      | .ok r => (r :: rest.1, rest.2)
      | .error e =>
        if containsSub e.toList "正文为空".toList then (rest.1, rest.2 + 1) else rest
    | none => rest

/-- `NewsConverter.convert_file` (src/convert_news.py:183-236): a dict is
wrapped into a singleton list, a list is used as is, anything else raises
the format `ValueError`; `FileNotFoundError` and `json.JSONDecodeError`
are reported separately.  On success the converted collection is written. -/
def convert_file (r : ReadResult) (envs : List EnvV1) :
    Except ConvErr (List NewsRecord × ℕ) :=
  match r with
  | .notFound => .error .notFound
  | .badJson => .error .parseErr
  | .parsed j =>
    match j with
    | .obj fields => .ok (processV1 [.obj fields] envs)
    | .arr l => .ok (processV1 l envs)
    | _ => .error .formatErr

/-- Variant 2's output envelope (`news_items` plus `total_count`). -/
structure OutV2 where
  news_items : List NewsRecord
  total_count : ℕ

/-- A default variant-2 oracle. -/
def defEnvV2 : EnvV2 := ⟨⟨2025, 1, 1, 0, 0, 0⟩, ⟨0, 0, 0, 0⟩, 0, [], 0, 10, fun _ => "", ""⟩

/-- Variant 2's conversion loop over `data["Sheet1"]`
(src/scripts/convert_localization_to_news.py:184-192). -/
def processV2 : List Json → List EnvV2 → List NewsRecord
  | [], _ => []
  | j :: t, envs =>
    match jsonToItem j with
    | some item => convert_news_item_v2 item (envs.headD defEnvV2) :: processV2 t envs.tail
    | none => processV2 t envs.tail

/-- Does a JSON array contain the string `"Sheet1"` (Python's `in` on a
list)? -/
def hasSheet1Elem (l : List Json) : Bool :=
  l.any (fun j => match j with | .str s => s = "Sheet1" | _ => false)

/-- `NewsDataConverter.convert_all`
(src/scripts/convert_localization_to_news.py:174-212).  The guard is
`if "Sheet1" in data and isinstance(data["Sheet1"], list)`: a dict without
a proper `Sheet1` list, a list without a `"Sheet1"` element, and a string
without the substring `"Sheet1"` all fall through to a *successful* run
that writes an empty `news_items` envelope; `in` on a non-iterable
(number/bool/null) raises `TypeError`, which the bare `except` re-raises,
as it does `FileNotFoundError` and `json.JSONDecodeError`. -/
def convert_all (r : ReadResult) (envs : List EnvV2) : Except ConvErr OutV2 :=
  match r with
  | .notFound => .error .notFound
  | .badJson => .error .parseErr
  | .parsed j =>
    match j with
    | .obj fields =>
      match lookupJ fields "Sheet1" with
      | some (.arr items) =>
        let ns := processV2 items envs
        .ok ⟨ns, ns.length⟩
      | _ => .ok ⟨[], 0⟩
    | .arr l => if hasSheet1Elem l then .error .typeErr else .ok ⟨[], 0⟩
    | .str s =>
      if containsSub s.toList "Sheet1".toList then .error .typeErr else .ok ⟨[], 0⟩
    | _ => .error .typeErr

/-! ## Variant 2: SQL emission (`generate_sql_inserts`) -/

/-- `str(value).replace("'", "''")`: double every single quote. -/
def escQuotes : List Char → List Char
  | [] => []
  | c :: t => if c = '\'' then '\'' :: '\'' :: escQuotes t else c :: escQuotes t

/-- `escape_sql` on a string: wrap the quote-doubled text in quotes. -/
def sqlQuoteStr (s : String) : List Char := '\'' :: (escQuotes s.toList ++ ['\''])

/-- `str(float)` for the hotness score: sign, integer digits, decimal
point, up to two fractional digits.  Only the character inventory matters
for the syntactic claims below. -/
def ratChars (q : ℚ) : List Char :=
  let n : ℕ := (⌊(|q| - ⌊|q|⌋) * 100⌋).toNat
  (if q < 0 then ['-'] else []) ++ toDigits (⌊|q|⌋).toNat ++
    '.' :: (if n % 10 = 0 then [digitChar10 (n / 10)]
            else [digitChar10 (n / 10), digitChar10 n])

/-- One value or fixed-text segment of the `INSERT` f-string. -/
inductive SqlPiece where
  | raw (s : String) : SqlPiece
  | lit (s : String) : SqlPiece
  | nat (n : ℕ) : SqlPiece
  | rat (q : ℚ) : SqlPiece
  | nullv : SqlPiece
  | boolv (b : Bool) : SqlPiece

/-- Characters a piece contributes to the statement (`escape_sql` per the
value's type: `NULL` for `None`, lowercased booleans, bare numbers, quoted
strings). -/
def pieceChars : SqlPiece → List Char
  | .raw s => s.toList
  | .lit s => sqlQuoteStr s
  | .nat n => toDigits n
  | .rat q => ratChars q
  | .nullv => "NULL".toList
  | .boolv true => "true".toList
  | .boolv false => "false".toList

def renderPieces : List SqlPiece → List Char
  | [] => []
  | p :: t => pieceChars p ++ renderPieces t

/-- `escape_sql` for the nullable string column `created_by`. -/
def optStrPiece : Option String → SqlPiece
  | none => .nullv
  | some s => .lit s

/-- `escape_sql` for the nullable numeric column `rss_source_id`. -/
def optNatPiece : Option ℕ → SqlPiece
  | none => .nullv
  | some n => .nat n

/-- The fixed text before the first value. -/
def sqlHead : String :=
  "INSERT INTO news (\n    title, content, summary, description, source, category, published_at,\n    created_by, is_active, source_type, rss_source_id, link, guid,\n    author, image_url, tags, language, view_count, like_count,\n    comment_count, share_count, hotness_score, status, is_processed,\n    created_at, updated_at\n) VALUES (\n    "

/-- The fixed text between two values. -/
def sqlSep : String := ",\n    "

/-- The fixed text after the last value. -/
def sqlTail : String := ",\n    NOW(),\n    NOW()\n);\n\n"

/-- The value segments of one `INSERT` statement, in source order. -/
def insertFront (r : NewsRecord) : List SqlPiece :=
  [.raw sqlHead, .lit r.title, .raw sqlSep, .lit r.content, .raw sqlSep,
   .lit r.summary, .raw sqlSep, .lit r.description, .raw sqlSep,
   .lit r.source, .raw sqlSep, .lit r.category, .raw sqlSep,
   .lit r.published_at, .raw sqlSep, optStrPiece r.created_by, .raw sqlSep,
   .boolv r.is_active, .raw sqlSep, .lit r.source_type, .raw sqlSep,
   optNatPiece r.rss_source_id, .raw sqlSep, .lit r.link, .raw sqlSep,
   .lit r.guid, .raw sqlSep, .lit r.author, .raw sqlSep, .lit r.image_url,
   .raw sqlSep, .lit r.tags, .raw sqlSep, .lit r.language, .raw sqlSep,
   .nat r.view_count, .raw sqlSep, .nat r.like_count, .raw sqlSep,
   .nat r.comment_count, .raw sqlSep, .nat r.share_count, .raw sqlSep,
   .rat r.hotness_score, .raw sqlSep, .lit r.status, .raw sqlSep,
   .boolv r.is_processed]

/-- One `INSERT INTO news (...) VALUES (...);` statement of
`NewsDataConverter.generate_sql_inserts`
(src/scripts/convert_localization_to_news.py:227-270). -/
def generate_sql_insert (r : NewsRecord) : String :=
  ⟨renderPieces (insertFront r ++ [.raw sqlTail])⟩

/-! ### A syntax scanner for the emitted statement -/

/-- Scanner state: inside a quoted literal?, parenthesis depth, and
whether no close-paren ever went below depth zero. -/
structure ScanSt where
  inLit : Bool
  depth : ℤ
  ok : Bool

/-- One scanner step.  Inside a literal only a quote is significant (a
doubled quote reads as leave-then-re-enter, which is equivalent for
balance); outside, quotes open literals and parentheses track depth. -/
def scanStep (st : ScanSt) (c : Char) : ScanSt :=
  if st.inLit then
    if c = '\'' then ⟨false, st.depth, st.ok⟩ else st
  else if c = '\'' then ⟨true, st.depth, st.ok⟩
  else if c = '(' then ⟨false, st.depth + 1, st.ok⟩
  else if c = ')' then ⟨false, st.depth - 1, st.ok && decide (1 ≤ st.depth)⟩
  else st

def scanL (l : List Char) (st : ScanSt) : ScanSt := l.foldl scanStep st

/-- Syntactic well-formedness: scanning ends outside any literal, at
depth zero, with no premature close-paren. -/
def sqlOk (l : List Char) : Bool :=
  let f := scanL l ⟨false, 0, true⟩
  f.ok && !f.inLit && decide (f.depth = 0)

theorem scanL_append (a b : List Char) (st : ScanSt) :
    scanL (a ++ b) st = scanL b (scanL a st) := List.foldl_append _ _ _ _

theorem escQuotes_scan (s : List Char) (d : ℤ) (ok : Bool) :
    scanL (escQuotes s) ⟨true, d, ok⟩ = ⟨true, d, ok⟩ := by
  induction s with
  | nil => rfl
  | cons c t ih =>
    by_cases hc : c = '\''
    · subst hc
      show scanL ('\'' :: '\'' :: escQuotes t) _ = _
      simp only [scanL, List.foldl_cons, scanStep, if_pos rfl, if_true]
      exact ih
    · rw [escQuotes, if_neg hc]
      simp only [scanL, List.foldl_cons]
      rw [show scanStep ⟨true, d, ok⟩ c = ⟨true, d, ok⟩ by simp [scanStep, hc]]
      exact ih

theorem lit_scan (s : String) (d : ℤ) (ok : Bool) :
    scanL (sqlQuoteStr s) ⟨false, d, ok⟩ = ⟨false, d, ok⟩ := by
  show scanL ('\'' :: (escQuotes s.toList ++ ['\''])) _ = _
  simp only [scanL, List.foldl_cons, List.foldl_append]
  rw [show scanStep ⟨false, d, ok⟩ '\'' = ⟨true, d, ok⟩ by simp [scanStep]]
  have h := escQuotes_scan s.toList d ok
  simp only [scanL] at h
  rw [h]
  simp [scanStep]

/-- Characters that are inert for the scanner. -/
def sqlSafeCh (c : Char) : Bool := ¬(c = '\'' ∨ c = '(' ∨ c = ')')

theorem safe_scan {l : List Char} (h : ∀ c ∈ l, sqlSafeCh c = true) (d : ℤ) (ok : Bool) :
    scanL l ⟨false, d, ok⟩ = ⟨false, d, ok⟩ := by
  induction l with
  | nil => rfl
  | cons c t ih =>
    have hc := of_decide_eq_true (h c (by simp))
    push_neg at hc
    simp only [scanL, List.foldl_cons]
    rw [show scanStep ⟨false, d, ok⟩ c = ⟨false, d, ok⟩ by
      simp [scanStep, hc.1, hc.2.1, hc.2.2]]
    exact ih (fun x hx => h x (by simp [hx]))

theorem digit_safe {c : Char} (h : isDigitCh c = true) : sqlSafeCh c = true := by
  have h1 := (digitCh_toNat h).1
  apply decide_eq_true
  push_neg
  refine ⟨?_, ?_, ?_⟩ <;> intro hc <;> rw [hc] at h1 <;> exact absurd h1 (by decide)

theorem toDigits_safe (n : ℕ) : ∀ c ∈ toDigits n, sqlSafeCh c = true :=
  fun c hc => digit_safe (toDigits_digits n c hc)

theorem ratChars_safe (q : ℚ) : ∀ c ∈ ratChars q, sqlSafeCh c = true := by
  intro c hc
  simp only [ratChars, List.mem_append, List.mem_cons, List.mem_singleton] at hc
  rcases hc with (h1 | h2) | h3
  · split at h1
    · simp only [List.mem_singleton] at h1
      subst h1
      decide
    · simp at h1
  · exact toDigits_safe _ c h2
  · rcases h3 with rfl | h4
    · decide
    · split at h4
      · simp only [List.mem_singleton] at h4
        subst h4
        exact digit_safe (isDigitCh_digitChar10 _)
      · simp only [List.mem_cons, List.not_mem_nil, or_false] at h4
        rcases h4 with rfl | rfl <;> exact digit_safe (isDigitCh_digitChar10 _)

theorem noQuote_inLit {l : List Char} (h : ∀ c ∈ l, c ≠ '\'') {st : ScanSt}
    (hst : st.inLit = false) : (scanL l st).inLit = false := by
  induction l generalizing st with
  | nil => exact hst
  | cons c t ih =>
    simp only [scanL, List.foldl_cons]
    apply ih (fun x hx => h x (by simp [hx]))
    unfold scanStep
    rw [hst]
    simp only [if_false, Bool.false_eq_true]
    rw [if_neg (h c (by simp))]
    split
    · rfl
    · split
      · rfl
      · exact hst

/-- The raw (fixed-text) skeleton of a piece list. -/
def rawOnly : List SqlPiece → List Char
  | [] => []
  | .raw s :: t => s.toList ++ rawOnly t
  | _ :: t => rawOnly t

/-- Scanning the rendered statement is the same as scanning its fixed-text
skeleton: every literal, number, `NULL` and boolean is scanner-inert. -/
theorem renderPieces_scan (ps : List SqlPiece) (st : ScanSt) (hst : st.inLit = false)
    (hraw : ∀ c ∈ rawOnly ps, c ≠ '\'') :
    scanL (renderPieces ps) st = scanL (rawOnly ps) st := by
  induction ps generalizing st with
  | nil => rfl
  | cons p t ih =>
    obtain ⟨stl, std, sto⟩ := st
    simp only at hst
    subst hst
    cases p with
    | raw s =>
      have hs : ∀ c ∈ s.toList, c ≠ '\'' :=
        fun c hc => hraw c (by simp only [rawOnly, List.mem_append]; exact Or.inl hc)
      have ht : ∀ c ∈ rawOnly t, c ≠ '\'' :=
        fun c hc => hraw c (by simp only [rawOnly, List.mem_append]; exact Or.inr hc)
      show scanL (s.toList ++ renderPieces t) _ = scanL (s.toList ++ rawOnly t) _
      rw [scanL_append, scanL_append]
      exact ih _ (noQuote_inLit hs rfl) ht
    | lit s =>
      show scanL (sqlQuoteStr s ++ renderPieces t) _ = scanL (rawOnly t) _
      rw [scanL_append, lit_scan]
      exact ih _ rfl hraw
    | nat n =>
      show scanL (toDigits n ++ renderPieces t) _ = scanL (rawOnly t) _
      rw [scanL_append, safe_scan (toDigits_safe n)]
      exact ih _ rfl hraw
    | rat q =>
      show scanL (ratChars q ++ renderPieces t) _ = scanL (rawOnly t) _
      rw [scanL_append, safe_scan (ratChars_safe q)]
      exact ih _ rfl hraw
    | nullv =>
      show scanL ("NULL".toList ++ renderPieces t) _ = scanL (rawOnly t) _
      rw [scanL_append, safe_scan (by decide)]
      exact ih _ rfl hraw
    | boolv b =>
      cases b
      · show scanL ("false".toList ++ renderPieces t) _ = scanL (rawOnly t) _
        rw [scanL_append, safe_scan (by decide)]
        exact ih _ rfl hraw
      · show scanL ("true".toList ++ renderPieces t) _ = scanL (rawOnly t) _
        rw [scanL_append, safe_scan (by decide)]
        exact ih _ rfl hraw

theorem generate_sql_insert_toList (r : NewsRecord) :
    (generate_sql_insert r).toList = renderPieces (insertFront r ++ [SqlPiece.raw sqlTail]) := rfl

/-- The fixed-text skeleton of every emitted statement: head, 23
separators, tail. -/
def sqlSkeleton : List Char :=
  sqlHead.toList ++ ((List.replicate 23 sqlSep.toList).flatten ++ sqlTail.toList)

set_option maxRecDepth 10000 in
theorem rawOnly_insertFront (r : NewsRecord) :
    rawOnly (insertFront r ++ [SqlPiece.raw sqlTail]) = sqlSkeleton := by
  cases hcb : r.created_by <;> cases hrs : r.rss_source_id <;>
  · simp only [insertFront, hcb, hrs, rawOnly, optStrPiece, optNatPiece,
      List.cons_append, List.nil_append, List.append_nil]
    decide

set_option maxRecDepth 10000 in
theorem generate_sql_insert_wellformed_aux (r : NewsRecord) :
    sqlOk (generate_sql_insert r).toList = true := by
  rw [generate_sql_insert_toList]
  simp only [sqlOk]
  rw [renderPieces_scan _ _ rfl (by rw [rawOnly_insertFront]; decide)]
  rw [rawOnly_insertFront]
  decide

/-! ### Suffix and substring facts about the emitted statement -/

/-- Python `str.endswith`. -/
def endsWithB (l p : List Char) : Bool := leadsWith p.reverse l.reverse

theorem leadsWith_extend {p a : List Char} (b : List Char)
    (h : leadsWith p a = true) : leadsWith p (a ++ b) = true := by
  induction p generalizing a with
  | nil => rfl
  | cons c cs ih =>
    cases a with
    | nil => simp [leadsWith] at h
    | cons x xs =>
      simp only [leadsWith, Bool.and_eq_true] at h ⊢
      exact ⟨h.1, ih h.2⟩

theorem endsWithB_append {b p : List Char} (a : List Char)
    (h : endsWithB b p = true) : endsWithB (a ++ b) p = true := by
  unfold endsWithB at h ⊢
  rw [List.reverse_append]
  exact leadsWith_extend _ h

theorem renderPieces_append (a b : List SqlPiece) :
    renderPieces (a ++ b) = renderPieces a ++ renderPieces b := by
  induction a with
  | nil => rfl
  | cons p t ih =>
    simp only [List.cons_append, renderPieces, List.append_eq, ih, List.append_assoc]

/-- Every emitted statement ends with `");\n\n"`: the terminating
semicolon is always present. -/
theorem generate_sql_insert_endsWith (r : NewsRecord) :
    endsWithB (generate_sql_insert r).toList ");\n\n".toList = true := by
  rw [generate_sql_insert_toList, renderPieces_append]
  exact endsWithB_append _ (by decide)

theorem containsSub_append_right {b p : List Char} (a : List Char)
    (h : containsSub b p = true) : containsSub (a ++ b) p = true := by
  induction a with
  | nil => exact h
  | cons c t ih =>
    show (leadsWith p (c :: (t ++ b)) || containsSub (t ++ b) p) = true
    rw [ih]
    simp

theorem containsSub_append_left {a p : List Char} (b : List Char)
    (h : containsSub a p = true) : containsSub (a ++ b) p = true := by
  induction a with
  | nil =>
    cases p with
    | nil =>
      cases b with
      | nil => exact h
      | cons x xs => simp [containsSub, leadsWith]
    | cons c cs => simp [containsSub, leadsWith] at h
  | cons c t ih =>
    rw [containsSub, Bool.or_eq_true] at h
    show (leadsWith p (c :: (t ++ b)) || containsSub (t ++ b) p) = true
    rcases h with h1 | h2
    · rw [show (c :: (t ++ b)) = (c :: t) ++ b by simp, leadsWith_extend b h1]
      simp
    · rw [ih h2]
      simp

/-- Doubling quotes: if the value contains a single quote, the escaped
text contains the doubled quote sequence. -/
theorem escQuotes_doubles {l : List Char} (h : containsSub l ['\''] = true) :
    containsSub (escQuotes l) ['\'', '\''] = true := by
  induction l with
  | nil => simp [containsSub, leadsWith] at h
  | cons c t ih =>
    by_cases hc : c = '\''
    · subst hc
      show containsSub ('\'' :: '\'' :: escQuotes t) _ = true
      rw [containsSub]
      simp [leadsWith]
    · rw [containsSub, Bool.or_eq_true] at h
      rcases h with h1 | h2
      · exfalso
        simp only [leadsWith, Bool.and_eq_true, decide_eq_true_eq] at h1
        exact hc h1.1.symm
      · rw [escQuotes, if_neg hc, containsSub, ih h2]
        simp

/-- If the record's title contains a single quote, the emitted statement
contains the quote doubled. -/
theorem generate_sql_insert_doubles (r : NewsRecord)
    (h : containsSub r.title.toList ['\''] = true) :
    containsSub (generate_sql_insert r).toList ['\'', '\''] = true := by
  rw [generate_sql_insert_toList]
  show containsSub (sqlHead.toList ++ (sqlQuoteStr r.title ++ _)) _ = true
  apply containsSub_append_right
  apply containsSub_append_left
  show containsSub ('\'' :: (escQuotes r.title.toList ++ ['\''])) _ = true
  rw [containsSub, Bool.or_eq_true]
  right
  exact containsSub_append_left _ (escQuotes_doubles h)

/-! ## Claim theorems -/

theorem jsonToItem_itemToJson (item : SourceItem) : jsonToItem (itemToJson item) = some item := rfl

/-- C1, counterexample: variant 2's `convert_news_item` has no empty-body
check; a source record whose body is a single space is emitted with empty
`content`, so "every emitted NormalizedRecord has non-empty content" is
false as stated over both converters. -/
theorem C1_counterexample :
    (convert_news_item_v2 ⟨"", "标题x", "", "", "来源x", "", " ", ""⟩ defEnvV2).content = "" ∧
    (⟨"", "标题x", "", "", "来源x", "", " ", ""⟩ : SourceItem).content ≠ "" :=
  ⟨by decide, by decide⟩

/-- C1, amended: variant 1's `convert_news_item` rejects exactly the
records whose body strips to empty (raising the empty-body `ValueError`,
which the batch loop counts as a skip and does not emit), so every record
it emits has body text that strips to non-empty; variant 2 emits a record
for every input, with `content` the cleaned body — empty when the body is
empty. -/
theorem C1_empty_body_amended :
    (∀ (item : SourceItem) (env : EnvV1) (r : NewsRecord),
      convert_news_item_v1 item env = .ok r →
      pyStrip r.content.toList ≠ [] ∧ r.content = item.content) ∧
    (∀ (item : SourceItem) (env : EnvV1), pyStrip item.content.toList = [] →
      convert_news_item_v1 item env = .error "正文为空，跳过此条新闻") ∧
    (∀ (item : SourceItem) (env : EnvV1) (envs : List EnvV1),
      pyStrip item.content.toList = [] →
      processV1 [itemToJson item] (env :: envs) = ([], 1)) ∧
    (∀ (item : SourceItem) (env : EnvV2),
      (convert_news_item_v2 item env).content = clean_text item.content) := by
  have herr : ∀ (item : SourceItem) (env : EnvV1), pyStrip item.content.toList = [] →
      convert_news_item_v1 item env = .error "正文为空，跳过此条新闻" := by
    intro item env h
    simp only [convert_news_item_v1]
    rw [if_pos (Or.inr h)]
  refine ⟨?_, herr, ?_, ?_⟩
  · intro item env r h
    simp only [convert_news_item_v1] at h
    split at h
    · exact Except.noConfusion h
    · next hc =>
      push_neg at hc
      cases h
      exact ⟨hc.2, rfl⟩
  · intro item env envs h
    simp only [processV1, List.headD, List.tail, jsonToItem_itemToJson]
    rw [herr item env h]
    simp only []
    rw [if_pos (by decide)]
  · intro item env
    rfl

/-- C1, witness for the amended theorem at concrete inputs. -/
theorem C1_empty_body_witness :
    processV1 [itemToJson ⟨"", "标题x", "", "", "来源x", "", " ", ""⟩] [defEnvV1] = ([], 1) ∧
    (convert_news_item_v2 ⟨"", "标题y", "", "", "", "", "正文y", ""⟩ defEnvV2).content =
      clean_text "正文y" :=
  ⟨C1_empty_body_amended.2.2.1 ⟨"", "标题x", "", "", "来源x", "", " ", ""⟩ defEnvV1 [] (by decide),
   C1_empty_body_amended.2.2.2 ⟨"", "标题y", "", "", "", "", "正文y", ""⟩ defEnvV2⟩

theorem contains_mem {l : List String} {s : String} (h : l.contains s = true) : s ∈ l := by
  induction l with
  | nil => simp [List.contains] at h
  | cons a t ih =>
    rw [List.contains_cons, Bool.or_eq_true] at h
    rcases h with h1 | h2
    · rw [eq_of_beq h1]
      simp
    · simp [ih h2]

/-- C2: for every non-empty-body record, both converters assign a
category from their fixed category sets; when no keyword matches,
variant 1 falls back to the fixed default `"社会"`; variant 2's
no-keyword fallback is a `random.choice` over its fixed set, which is
likewise always a member. -/
theorem C2_category_in_fixed_set :
    (∀ title content, analyze_category_with_ai title content ∈ categoriesV1) ∧
    (∀ (item : SourceItem) (env : EnvV1) (r : NewsRecord),
      convert_news_item_v1 item env = .ok r → r.category ∈ categoriesV1) ∧
    (∀ title content,
      (∀ p ∈ keywordCategoryMap, ∀ k ∈ p.2,
        countOcc k.toList (classifierText title content) = 0) →
      analyze_category_with_ai title content = "社会") ∧
    (∀ (item : SourceItem) (env : EnvV2), env.Valid →
      (convert_news_item_v2 item env).category ∈ categoriesV2) := by
  refine ⟨analyze_category_mem, ?_, analyze_category_default, ?_⟩
  · intro item env r h
    simp only [convert_news_item_v1] at h
    split at h
    · exact Except.noConfusion h
    · cases h
      exact analyze_category_mem item.title item.content
  · intro item env hv
    show (if categoriesV2.contains item.keyword then item.keyword
          else pyChoice categoriesV2 env.catIdx) ∈ categoriesV2
    split
    · next hc => exact contains_mem hc
    · exact pyChoice_mem hv.2.1

/-- C2, witness: concrete instantiations of every clause. -/
theorem C2_category_witness :
    analyze_category_with_ai "股市大涨" "今日股市表现强劲" ∈ categoriesV1 ∧
    analyze_category_with_ai "x" "y" = "社会" ∧
    (∃ r, convert_news_item_v1 ⟨"", "标题", "", "", "来源", "", "正文内容", ""⟩ defEnvV1 = .ok r ∧
      r.category ∈ categoriesV1) ∧
    (convert_news_item_v2 ⟨"", "标题", "", "", "", "", "正文", ""⟩ defEnvV2).category ∈ categoriesV2 :=
  ⟨C2_category_in_fixed_set.1 _ _,
   C2_category_in_fixed_set.2.2.1 "x" "y" (by decide),
   ⟨_, rfl,
    C2_category_in_fixed_set.2.1 ⟨"", "标题", "", "", "来源", "", "正文内容", ""⟩ defEnvV1 _ rfl⟩,
   C2_category_in_fixed_set.2.2.2 ⟨"", "标题", "", "", "", "", "正文", ""⟩ defEnvV2
     (by refine ⟨by decide, by decide, by decide⟩)⟩

/-- C3: both variants' `parse_datetime` are total (modelled as total
functions: every `try/except` path returns a value) and always return a
string in canonical `YYYY-MM-DD HH:MM:SS` shape; the input
`"2025年07月01日19:01"` maps exactly to `"2025-07-01 19:01:00"` in both,
and the unparseable input `"garbage"` still yields a canonically shaped
timestamp (the formatted fallback instant). -/
theorem C3_parse_datetime_canonical :
    (∀ (s : String) (now : DT), now.Valid →
      isCanonical (parse_datetime_v1 s now).toList = true) ∧
    (∀ now : DT, parse_datetime_v1 "2025年07月01日19:01" now = "2025-07-01 19:01:00") ∧
    (∀ (s : String) (fb : DT), fb.Valid →
      isCanonical (parse_datetime_v2 s fb).toList = true) ∧
    (∀ fb : DT, parse_datetime_v2 "2025年07月01日19:01" fb = "2025-07-01 19:01:00") ∧
    (∀ now : DT, now.Valid → isCanonical (parse_datetime_v1 "garbage" now).toList = true) ∧
    (∀ fb : DT, fb.Valid → isCanonical (parse_datetime_v2 "garbage" fb).toList = true) :=
  ⟨fun s _ h => parse_datetime_v1_canonical s h,
   fun _ => rfl,
   fun s _ h => parse_datetime_v2_canonical s h,
   fun _ => rfl,
   fun _ h => parse_datetime_v1_canonical _ h,
   fun _ h => parse_datetime_v2_canonical _ h⟩

/-- C3, witness at a concrete wall-clock instant. -/
theorem C3_parse_datetime_witness :
    isCanonical (parse_datetime_v1 "garbage" ⟨2025, 7, 1, 19, 1, 0⟩).toList = true ∧
    isCanonical (parse_datetime_v2 "garbage" ⟨2025, 7, 1, 19, 1, 0⟩).toList = true ∧
    parse_datetime_v1 "2025年07月01日19:01" ⟨2025, 7, 1, 19, 1, 0⟩ = "2025-07-01 19:01:00" ∧
    parse_datetime_v2 "2025年07月01日19:01" ⟨2025, 7, 1, 19, 1, 0⟩ = "2025-07-01 19:01:00" ∧
    isCanonical (parse_datetime_v1 "随便什么字符串" ⟨2025, 7, 1, 19, 1, 0⟩).toList = true :=
  ⟨C3_parse_datetime_canonical.2.2.2.2.1 _ (by decide),
   C3_parse_datetime_canonical.2.2.2.2.2 _ (by decide),
   C3_parse_datetime_canonical.2.1 _,
   C3_parse_datetime_canonical.2.2.2.1 _,
   C3_parse_datetime_canonical.1 "随便什么字符串" _ (by decide)⟩

set_option maxRecDepth 20000 in
set_option maxHeartbeats 1600000 in
/-- C4, counterexample: with the default budget of 200, a body of 200
characters and no sentence breaks is assembled through the sentence loop
(the loop output is non-empty) yet the returned summary has 201
characters — the terminal `"。"` is appended after the length check, so
the sentence-built summary is not bounded by the budget. -/
theorem C4_counterexample :
    (generate_summary ⟨List.replicate 200 'a'⟩ 200).toList.length = 201 ∧
    sumLoop (splitTerm (removeBrackets (removeWs
      (⟨List.replicate 200 'a'⟩ : String).toList)) []) [] 200 ≠ [] := by
  constructor
  · decide
  · decide

/-- C4, amended: the summary built from sentences has length at most
`budget + 1` (the appended terminal marker is not counted by the check),
and the raw-prefix fallback has length at most `budget + 3` (the `"..."`
marker); the claim's original `≤ budget` bound fails only by that one
terminal character. -/
theorem C4_summary_length_amended (content : String) (m : ℕ) :
    (generate_summary content m).toList.length ≤ m + 3 ∧
    (sumLoop (splitTerm (removeBrackets (removeWs content.toList)) []) [] m ≠ [] →
      (generate_summary content m).toList.length ≤ m + 1) :=
  generate_summary_length content m

/-- C4, witness for the amended bounds at a concrete input. -/
theorem C4_summary_length_witness :
    (generate_summary "好文。" 200).toList.length ≤ 201 :=
  (C4_summary_length_amended "好文。" 200).2 (by decide)

theorem convert_v1_emits {item : SourceItem} (env : EnvV1)
    (h : pyStrip item.content.toList ≠ []) :
    ∃ r, convert_news_item_v1 item env = .ok r := by
  simp only [convert_news_item_v1]
  rw [if_neg (by
    push_neg
    exact ⟨fun hc => h (by rw [hc]; rfl), h⟩)]
  exact ⟨_, rfl⟩

/-- C5: variant 1's hotness score for the fixed stats
`{view: 100, like: 10, comment: 5, share: 0}` is exactly `45.0`
(`100×0.1 + 10×2 + 5×3 + 0×5`, rounded to one decimal), and the score a
converted record carries is a function of the drawn stats alone — the
record's publish time (hence its age) never enters. -/
theorem C5_hotness_score :
    calculate_hotness_score ⟨100, 10, 5, 0⟩ = 45 ∧
    (∀ (item : SourceItem) (env : EnvV1) (r : NewsRecord),
      convert_news_item_v1 item env = .ok r →
      r.hotness_score = calculate_hotness_score env.stats) := by
  constructor
  · norm_num [calculate_hotness_score, pyRound1, pyRoundInt]
  · intro item env r h
    simp only [convert_news_item_v1] at h
    split at h
    · exact Except.noConfusion h
    · cases h
      rfl

/-- C5, witness: a concretely converted record carries exactly the score
of its drawn stats. -/
theorem C5_hotness_witness :
    ∃ r, convert_news_item_v1 ⟨"", "标题", "", "", "来源", "", "正文内容", ""⟩
        ⟨⟨2025, 7, 1, 0, 0, 0⟩, ⟨100, 10, 5, 0⟩, 0, fun _ => "", ""⟩ = .ok r ∧
      r.hotness_score = calculate_hotness_score ⟨100, 10, 5, 0⟩ := by
  obtain ⟨r, hr⟩ := @convert_v1_emits ⟨"", "标题", "", "", "来源", "", "正文内容", ""⟩
    ⟨⟨2025, 7, 1, 0, 0, 0⟩, ⟨100, 10, 5, 0⟩, 0, fun _ => "", ""⟩ (by decide)
  refine ⟨r, hr, ?_⟩
  have h2 := C5_hotness_score.2 _ _ _ hr
  rw [show (⟨⟨2025, 7, 1, 0, 0, 0⟩, ⟨100, 10, 5, 0⟩, 0, fun _ => "", ""⟩ : EnvV1).stats
      = (⟨100, 10, 5, 0⟩ : Stats) from rfl] at h2
  exact h2

/-- C6, counterexample: a top-level JSON string is none of the accepted
shapes, yet variant 2's `convert_all` succeeds and writes an empty
`news_items` envelope — it neither raises a format error nor refuses the
run. -/
theorem C6_counterexample :
    convert_all (.parsed (.str "hello")) [] = .ok ⟨[], 0⟩ := rfl

/-- C6, amended: variant 1's `convert_file` raises the format
`ValueError` for every top-level shape other than object/array and
reports missing-file and JSON-parse errors; variant 2's `convert_all`
propagates missing-file/parse/`TypeError` failures but, for a top-level
string without `"Sheet1"` or an object without a `Sheet1` key, completes
successfully with an empty output envelope instead of failing. -/
theorem C6_loader_amended :
    (∀ envs, convert_file .notFound envs = .error .notFound) ∧
    (∀ envs, convert_file .badJson envs = .error .parseErr) ∧
    (∀ envs n, convert_file (.parsed (.num n)) envs = .error .formatErr) ∧
    (∀ envs s, convert_file (.parsed (.str s)) envs = .error .formatErr) ∧
    (∀ envs b, convert_file (.parsed (.bool b)) envs = .error .formatErr) ∧
    (∀ envs, convert_file (.parsed .null) envs = .error .formatErr) ∧
    (∀ envs, convert_all .notFound envs = .error .notFound) ∧
    (∀ envs, convert_all .badJson envs = .error .parseErr) ∧
    (∀ envs n, convert_all (.parsed (.num n)) envs = .error .typeErr) ∧
    (∀ envs s, containsSub s.toList "Sheet1".toList = false →
      convert_all (.parsed (.str s)) envs = .ok ⟨[], 0⟩) ∧
    (∀ envs fields, lookupJ fields "Sheet1" = none →
      convert_all (.parsed (.obj fields)) envs = .ok ⟨[], 0⟩) := by
  refine ⟨fun _ => rfl, fun _ => rfl, fun _ _ => rfl, fun _ _ => rfl,
    fun _ _ => rfl, fun _ => rfl, fun _ => rfl, fun _ => rfl, fun _ _ => rfl,
    ?_, ?_⟩
  · intro envs s h
    simp only [convert_all]
    rw [if_neg (by rw [show containsSub s.toList "Sheet1".toList = containsSub s.data
      ['S', 'h', 'e', 'e', 't', '1'] from rfl] at h; simp [h])]
  · intro envs fields h
    simp [convert_all, h]

/-- C6, witness for the amended loader behaviors at concrete documents. -/
theorem C6_loader_witness :
    convert_all (.parsed (.str "hi")) [] = .ok ⟨[], 0⟩ ∧
    convert_all (.parsed (.obj [("foo", .num 1)])) [] = .ok ⟨[], 0⟩ :=
  ⟨C6_loader_amended.2.2.2.2.2.2.2.2.2.1 [] "hi" (by decide),
   C6_loader_amended.2.2.2.2.2.2.2.2.2.2 [] [("foo", .num 1)] rfl⟩

/-- C7, counterexample: in variant 2 a record with an empty source field
(`来源`) gets the fixed placeholder `"未知来源"`, not the URL's host name
(which `extract_domain_name` would render as `"example.com"`). -/
theorem C7_counterexample :
    (convert_news_item_v2 ⟨"", "标题", "", "", "", "", "正文", "http://www.example.com/news/1"⟩
      defEnvV2).source = "未知来源" ∧
    extract_domain_name "http://www.example.com/news/1" = "example.com" ∧
    ("未知来源" : String) ≠ "example.com" :=
  ⟨by decide, by decide, by decide⟩

/-- C7, amended: when the source field is present both converters use it
unchanged; when it is absent variant 1 derives the source from the URL's
host with a leading `"www."` stripped (via `extract_domain_name`), while
variant 2 substitutes the constant `"未知来源"` and never consults the
URL. -/
theorem C7_source_amended :
    (∀ (item : SourceItem) (env : EnvV1) (r : NewsRecord),
      convert_news_item_v1 item env = .ok r →
      (item.source = "" → r.source = extract_domain_name item.url) ∧
      (item.source ≠ "" → r.source = item.source)) ∧
    (∀ url : String,
      (leadsWith "www.".toList (netlocOf url.toList) = true →
        (extract_domain_name url).toList = (netlocOf url.toList).drop 4) ∧
      (leadsWith "www.".toList (netlocOf url.toList) = false →
        (extract_domain_name url).toList = netlocOf url.toList)) ∧
    (∀ (item : SourceItem) (env : EnvV2),
      (item.source = "" → (convert_news_item_v2 item env).source = "未知来源") ∧
      (item.source ≠ "" → (convert_news_item_v2 item env).source = item.source)) := by
  refine ⟨?_, ?_, ?_⟩
  · intro item env r h
    simp only [convert_news_item_v1] at h
    split at h
    · exact Except.noConfusion h
    · cases h
      constructor
      · intro hs
        show (if item.source = "" then extract_domain_name item.url else item.source) = _
        rw [if_pos hs]
      · intro hs
        show (if item.source = "" then extract_domain_name item.url else item.source) = _
        rw [if_neg hs]
  · intro url
    constructor
    · intro h
      show (if leadsWith "www.".toList (netlocOf url.toList) then
          (⟨(netlocOf url.toList).drop 4⟩ : String) else ⟨netlocOf url.toList⟩).toList = _
      rw [if_pos h]
      rfl
    · intro h
      show (if leadsWith "www.".toList (netlocOf url.toList) then
          (⟨(netlocOf url.toList).drop 4⟩ : String) else ⟨netlocOf url.toList⟩).toList = _
      rw [if_neg (by simp only [h]; exact Bool.false_ne_true)]
      rfl
  · intro item env
    constructor
    · intro hs
      show (if item.source = "" then "未知来源" else item.source) = _
      rw [if_pos hs]
    · intro hs
      show (if item.source = "" then "未知来源" else item.source) = _
      rw [if_neg hs]

/-- C7, witness for the amended source rules at concrete inputs. -/
theorem C7_source_witness :
    (∃ r, convert_news_item_v1 ⟨"", "标题", "", "", "", "", "正文", "http://www.example.com/a"⟩
        defEnvV1 = .ok r ∧
      r.source = extract_domain_name "http://www.example.com/a") ∧
    (extract_domain_name "http://www.example.com/a").toList =
      (netlocOf "http://www.example.com/a".toList).drop 4 ∧
    (convert_news_item_v2 ⟨"", "标题", "", "", "新华社", "", "正文", ""⟩ defEnvV2).source = "新华社" := by
  refine ⟨?_, C7_source_amended.2.1 "http://www.example.com/a" |>.1 (by decide), ?_⟩
  · obtain ⟨r, hr⟩ := @convert_v1_emits
      ⟨"", "标题", "", "", "", "", "正文", "http://www.example.com/a"⟩ defEnvV1 (by decide)
    exact ⟨r, hr, (C7_source_amended.1 _ _ _ hr).1 rfl⟩
  · exact (C7_source_amended.2.2 ⟨"", "标题", "", "", "新华社", "", "正文", ""⟩ defEnvV2).2 (by decide)

/-- C8: a body consisting of exactly one sentence (its terminal marker
included) whose length is within the budget is returned by
`generate_summary` verbatim — the sentence followed by its terminal
marker, with no truncation marker. -/
theorem C8_single_sentence (S : List Char) (m : ℕ) (hne : S ≠ []) (hlen : S.length ≤ m)
    (hok : ∀ c ∈ S, pySpace c = false ∧ c ≠ '【' ∧ isTermCh c = false) :
    generate_summary ⟨S ++ ['。']⟩ m = ⟨S ++ ['。']⟩ :=
  generate_summary_single S m hne hlen hok

/-- C8, witness: the two-character sentence `"好文"` with budget 200. -/
theorem C8_single_sentence_witness :
    generate_summary ⟨['好', '文'] ++ ['。']⟩ 200 = ⟨['好', '文'] ++ ['。']⟩ :=
  C8_single_sentence ['好', '文'] 200 (by decide) (by decide) (by decide)

/-- C9: for every record, the emitted `INSERT` statement is syntactically
well-formed — the paren scanner (which tracks quoted literals) ends
outside any literal at depth zero with no premature close — it terminates
with `");"` (followed by the two newlines of the f-string), and if the
title contains a single quote the statement contains the quote doubled. -/
theorem C9_sql_statement (r : NewsRecord) :
    sqlOk (generate_sql_insert r).toList = true ∧
    endsWithB (generate_sql_insert r).toList ");\n\n".toList = true ∧
    (containsSub r.title.toList ['\''] = true →
      containsSub (generate_sql_insert r).toList ['\'', '\''] = true) :=
  ⟨generate_sql_insert_wellformed_aux r, generate_sql_insert_endsWith r,
   generate_sql_insert_doubles r⟩

/-- C9, witness: a concrete record whose title contains a single quote. -/
theorem C9_sql_statement_witness :
    sqlOk (generate_sql_insert ⟨"It's a title", "content", "sum", "desc", "src", "cat",
      "2025-07-01 00:00:00", none, true, "manual", none, "link", "guid", "author", "img",
      "[]", "zh", 1, 2, 3, 4, 45, "published", true⟩).toList = true ∧
    containsSub (generate_sql_insert ⟨"It's a title", "content", "sum", "desc", "src", "cat",
      "2025-07-01 00:00:00", none, true, "manual", none, "link", "guid", "author", "img",
      "[]", "zh", 1, 2, 3, 4, 45, "published", true⟩).toList ['\'', '\''] = true :=
  ⟨(C9_sql_statement _).1,
   (C9_sql_statement ⟨"It's a title", "content", "sum", "desc", "src", "cat",
      "2025-07-01 00:00:00", none, true, "manual", none, "link", "guid", "author", "img",
      "[]", "zh", 1, 2, 3, 4, 45, "published", true⟩).2.2 (by decide)⟩

/-- C10: variant 2 passes the record's keyword (`关键词`) as both
arguments of `extract_tags`, so the serialized tag list is built from the
keyword (twice, when non-empty) plus sampled filler tags, and the
record's assigned category can only appear in it when the category equals
the keyword; variant 1's `tags` field is exactly the JSON serialization
of `[category, category, "热点"]`. -/
theorem C10_tags_wiring :
    (∀ (item : SourceItem) (env : EnvV2), env.Valid →
      (convert_news_item_v2 item env).tags =
        jsonDumpsStrList (tagListOf item.keyword item.keyword env.sample) ∧
      ((convert_news_item_v2 item env).category ∈
          tagListOf item.keyword item.keyword env.sample →
        (convert_news_item_v2 item env).category = item.keyword)) ∧
    (∀ (item : SourceItem) (env : EnvV1) (r : NewsRecord),
      convert_news_item_v1 item env = .ok r →
      r.tags = jsonDumpsStrList [r.category, r.category, "热点"]) := by
  constructor
  · intro item env hv
    constructor
    · rfl
    · intro hmem
      have hmem' : (if categoriesV2.contains item.keyword then item.keyword
          else pyChoice categoriesV2 env.catIdx) ∈
          tagListOf item.keyword item.keyword env.sample := hmem
      show (if categoriesV2.contains item.keyword then item.keyword
          else pyChoice categoriesV2 env.catIdx) = item.keyword
      by_cases hc : categoriesV2.contains item.keyword = true
      · rw [if_pos hc]
      · rw [if_neg hc] at hmem' ⊢
        have hcat : pyChoice categoriesV2 env.catIdx ∈ categoriesV2 := pyChoice_mem hv.2.1
        have hsplit : pyChoice categoriesV2 env.catIdx = item.keyword ∨
            pyChoice categoriesV2 env.catIdx ∈ additionalTags := by
          simp only [tagListOf, List.mem_append] at hmem'
          rcases hmem' with (h1 | h2) | h3
          · left
            split at h1
            · simpa using h1
            · simp at h1
          · left
            split at h2
            · simpa using h2
            · simp at h2
          · exact Or.inr (hv.2.2 _ h3)
        rcases hsplit with he | hadd
        · exact he
        · exact absurd hadd
            ((by decide : ∀ x ∈ categoriesV2, x ∉ additionalTags) _ hcat)
  · intro item env r h
    simp only [convert_news_item_v1] at h
    split at h
    · exact Except.noConfusion h
    · cases h
      rfl

/-- C10, witness: a keyword that is itself a category (so the tag list
contains the assigned category) and a concrete variant-1 record. -/
theorem C10_tags_witness :
    (convert_news_item_v2 ⟨"经济", "标题", "", "", "", "", "正文", ""⟩ defEnvV2).category =
      (⟨"经济", "标题", "", "", "", "", "正文", ""⟩ : SourceItem).keyword ∧
    (∃ r, convert_news_item_v1 ⟨"", "标题", "", "", "", "", "正文", ""⟩ defEnvV1 = .ok r ∧
      r.tags = jsonDumpsStrList [r.category, r.category, "热点"]) := by
  constructor
  · exact (C10_tags_wiring.1 ⟨"经济", "标题", "", "", "", "", "正文", ""⟩ defEnvV2
      ⟨by decide, by decide, by decide⟩).2 (by decide)
  · obtain ⟨r, hr⟩ := @convert_v1_emits
      ⟨"", "标题", "", "", "", "", "正文", ""⟩ defEnvV1 (by decide)
    exact ⟨r, hr, C10_tags_wiring.2 _ _ _ hr⟩
